import Mathlib

/-!
Verification of `zscripts/publish.py` (release-publishing pipeline).

The development shallowly embeds the script:

* text is `List Char` (Python `str`); machine-independent: Python integers
  are unbounded, so version components are `Int`;
* Python `int(...)` is modelled by `pyIntParse` (whitespace stripping, an
  optional sign, decimal digits with single underscores strictly between
  digits); `\s` and string `lower/strip/upper` are modelled over the ASCII
  range (the script only ever meets ASCII project files);
* the three regular expressions `VERSION_RE`, `PACKAGE_ID_RE`,
  `IS_PACKABLE_RE` are embedded as direct deterministic matchers (each
  pattern is backtracking-free on the relevant alternative, see the comments
  at `matchVersionAt` and `matchTagAt`); `\d` is modelled as ASCII digits;
* the filesystem seen by the script is the association list of the
  discovered `.csproj` files (root-relative path, content), in discovery
  order; directories are lists of path components, innermost first, so the
  parent of `c :: t` is `t` and the parent of the root `[]` is itself;
* every external observation (prints, echoed commands, subprocess
  invocations, file writes) is an `Eff` in chronological order, and
  subprocess exit codes come from an oracle `extCode` in the run
  configuration.
-/

/-! ### ASCII character helpers -/

/-- Python whitespace (`str.strip`, `\s`), restricted to the ASCII range. -/
def isPySpace (c : Char) : Bool :=
  c == ' ' || c == '\t' || c == '\n' || c == '\r' || c == '\x0b' || c == '\x0c'

/-- ASCII lower-casing of one character (Python `str.lower`). -/
def lowerCh (c : Char) : Char :=
  if 65 ≤ c.toNat ∧ c.toNat ≤ 90 then Char.ofNat (c.toNat + 32) else c

/-- ASCII upper-casing of one character (Python `str.upper`). -/
def upperCh (c : Char) : Char :=
  if 97 ≤ c.toNat ∧ c.toNat ≤ 122 then Char.ofNat (c.toNat - 32) else c

/-- Python `s.strip()` over char lists. -/
def pyStrip (cs : List Char) : List Char :=
  ((cs.dropWhile isPySpace).reverse.dropWhile isPySpace).reverse

/-- Python `s.lower()` over char lists. -/
def pyLower (cs : List Char) : List Char := cs.map lowerCh

/-- Python `s.upper()` over char lists. -/
def pyUpper (cs : List Char) : List Char := cs.map upperCh

/-- Python `s.split(".")` over char lists: `splitDot [] = [[]]`, and a dot
starts a new (possibly empty) piece. -/
def splitDot : List Char → List (List Char)
  | [] => [[]]
  | c :: cs =>
    if c = '.' then [] :: splitDot cs
    else
      match splitDot cs with
      | [] => [[c]]
      | p :: ps => (c :: p) :: ps

/-! ### Python `int` on strings -/

/-- After the first digit of an integer literal: digits, with single
underscores allowed strictly between digits (Python 3 `int`). `acc` is the
value of the digits already read. -/
def pudAux : Nat → List Char → Option Nat
  | acc, [] => some acc
  | acc, c :: cs =>
    if c.isDigit then pudAux (10 * acc + (c.toNat - 48)) cs
    else if c = '_' then
      match cs with
      | [] => none
      | c2 :: cs2 =>
        if c2.isDigit then pudAux (10 * acc + (c2.toNat - 48)) cs2 else none
    else none

/-- An unsigned decimal integer literal (nonempty, digits with single
underscores strictly between digits). -/
def pud : List Char → Option Nat
  | [] => none
  | c :: cs => if c.isDigit then pudAux (c.toNat - 48) cs else none

/-- Python `int(s)`: strip whitespace, optional single sign, then an
unsigned literal. -/
def pyIntParse (cs : List Char) : Option Int :=
  match pyStrip cs with
  | [] => none
  | c :: rest =>
    if c = '+' then (pud rest).map (fun n => (n : Int))
    else if c = '-' then (pud rest).map (fun n => -(n : Int))
    else (pud (c :: rest)).map (fun n => (n : Int))

/-! ### Decimal rendering (Python `str` of an integer) -/

/-- The character of a decimal digit. -/
def digitCh (n : Nat) : Char :=
  if n = 0 then '0' else if n = 1 then '1' else if n = 2 then '2'
  else if n = 3 then '3' else if n = 4 then '4' else if n = 5 then '5'
  else if n = 6 then '6' else if n = 7 then '7' else if n = 8 then '8'
  else '9'

/-- Decimal digits of `n`, most significant first; `fuel` bounds the
recursion depth (`n + 1` always suffices). -/
def natDigitsAux : Nat → Nat → List Char
  | 0, _ => []
  | fuel + 1, n =>
    if n < 10 then [digitCh n]
    else natDigitsAux fuel (n / 10) ++ [digitCh (n % 10)]

/-- Decimal digits of a natural number, most significant first. -/
def natDigits (n : Nat) : List Char := natDigitsAux (n + 1) n

/-- Decimal rendering of a natural number. -/
def natRender (n : Nat) : String := String.mk (natDigits n)

/-- Decimal rendering of a Python integer, as `str` renders it. -/
def intRenderL (i : Int) : List Char :=
  if i < 0 then '-' :: natDigits i.natAbs else natDigits i.toNat

/-! ### `SemVer` (dataclass of `publish.py`) -/

/-- The `SemVer` dataclass: a triple of Python integers. -/
structure SemVer where
  major : Int
  minor : Int
  patch : Int
  deriving DecidableEq

/-- `SemVer.__str__`: `f"{major}.{minor}.{patch}"`. -/
def SemVer.str (v : SemVer) : String :=
  String.mk (intRenderL v.major ++ '.' :: intRenderL v.minor ++ '.' :: intRenderL v.patch)

/-- `SemVer.parse`: strip the string, split on dots, require exactly three
parts, convert each with `int`.  (The error message of a failing `int` call
is abbreviated; the script never inspects these messages.) -/
def SemVer.parse (s : String) : Except String SemVer :=
  match splitDot (pyStrip s.data) with
  | [p1, p2, p3] =>
    match pyIntParse p1, pyIntParse p2, pyIntParse p3 with
    | some a, some b, some c => .ok ⟨a, b, c⟩
    | _, _, _ => .error ("invalid literal for int() with base 10 in: " ++ s)
  | _ => .error ("Expected x.y.z, got: " ++ s)

/-- `SemVer.bump`: normalise the kind with `lower().strip()` and bump the
corresponding component, zeroing the lower-significance ones. -/
def SemVer.bump (v : SemVer) (kind : String) : Except String SemVer :=
  let k := String.mk (pyStrip (pyLower kind.data))
  if k = "major" then .ok ⟨v.major + 1, 0, 0⟩
  else if k = "minor" then .ok ⟨v.major, v.minor + 1, 0⟩
  else if k = "patch" then .ok ⟨v.major, v.minor, v.patch + 1⟩
  else .error "Bump kind must be one of: major, minor, patch"

deriving instance DecidableEq for Except

/-! ### Arithmetic facts about digit strings -/

/-- One step of reading a decimal number. -/
def digitStep (a : Nat) (c : Char) : Nat := 10 * a + (c.toNat - 48)

/-- The value of a list of decimal digits. -/
def digitsVal (cs : List Char) : Nat := cs.foldl digitStep 0

theorem digitCh_isDigit (n : Nat) : (digitCh n).isDigit = true := by
  unfold digitCh; split_ifs <;> decide

theorem digitCh_val (n : Nat) (h : n < 10) : (digitCh n).toNat - 48 = n := by
  unfold digitCh
  split_ifs with h0 h1 h2 h3 h4 h5 h6 h7 h8 <;> simp_all <;> omega

theorem natDigitsAux_all_digit (fuel n : Nat) :
    ∀ c ∈ natDigitsAux fuel n, c.isDigit = true := by
  induction fuel generalizing n with
  | zero => simp [natDigitsAux]
  | succ fuel ih =>
    intro c hc
    unfold natDigitsAux at hc
    split at hc
    · simp at hc; simp [hc, digitCh_isDigit]
    · rcases List.mem_append.1 hc with h | h
      · exact ih _ _ h
      · simp at h; simp [h, digitCh_isDigit]

theorem natDigitsAux_ne_nil (fuel n : Nat) (h : fuel ≠ 0) :
    natDigitsAux fuel n ≠ [] := by
  cases fuel with
  | zero => exact absurd rfl h
  | succ fuel =>
    unfold natDigitsAux
    split
    · simp
    · simp

theorem natDigitsAux_val (fuel n : Nat) (h : n < fuel) :
    digitsVal (natDigitsAux fuel n) = n := by
  induction fuel generalizing n with
  | zero => omega
  | succ fuel ih =>
    unfold natDigitsAux
    split
    · next hlt =>
      simp [digitsVal, digitStep, digitCh_val n hlt]
    · next hge =>
      have h10 : 10 ≤ n := by omega
      have hdiv : n / 10 < fuel := by
        have := Nat.div_lt_self (by omega : 0 < n) (by norm_num : 1 < 10)
        omega
      simp only [digitsVal, List.foldl_append, List.foldl_cons, List.foldl_nil]
      have := ih (n / 10) hdiv
      simp only [digitsVal] at this
      rw [this, digitStep, digitCh_val _ (Nat.mod_lt _ (by norm_num))]
      omega

theorem natDigits_all_digit (n : Nat) : ∀ c ∈ natDigits n, c.isDigit = true :=
  natDigitsAux_all_digit _ _

theorem natDigits_ne_nil (n : Nat) : natDigits n ≠ [] :=
  natDigitsAux_ne_nil _ _ (by omega)

theorem natDigits_val (n : Nat) : digitsVal (natDigits n) = n :=
  natDigitsAux_val _ _ (by omega)

theorem pudAux_digits (cs : List Char) : ∀ acc, (∀ c ∈ cs, c.isDigit = true) →
    pudAux acc cs = some (cs.foldl digitStep acc) := by
  induction cs with
  | nil => intro acc _; simp [pudAux]
  | cons c cs ih =>
    intro acc h
    have hc : c.isDigit = true := h c (List.mem_cons_self _ _)
    unfold pudAux
    rw [if_pos hc]
    rw [ih _ (fun d hd => h d (List.mem_cons_of_mem _ hd))]
    simp [digitStep]

theorem pud_digits (cs : List Char) (hne : cs ≠ [])
    (h : ∀ c ∈ cs, c.isDigit = true) : pud cs = some (digitsVal cs) := by
  cases cs with
  | nil => exact absurd rfl hne
  | cons c cs =>
    have hc : c.isDigit = true := h c (List.mem_cons_self _ _)
    show (if c.isDigit = true then pudAux (c.toNat - 48) cs else none) = _
    rw [if_pos hc, pudAux_digits _ _ (fun d hd => h d (List.mem_cons_of_mem _ hd))]
    show _ = some (List.foldl digitStep (digitStep 0 c) cs)
    have : digitStep 0 c = c.toNat - 48 := by simp only [digitStep]; omega
    rw [this]

theorem isDigit_not_space {c : Char} (h : c.isDigit = true) : isPySpace c = false := by
  by_cases h1 : c = ' '
  · subst h1; exact absurd h (by decide)
  by_cases h2 : c = '\t'
  · subst h2; exact absurd h (by decide)
  by_cases h3 : c = '\n'
  · subst h3; exact absurd h (by decide)
  by_cases h4 : c = '\r'
  · subst h4; exact absurd h (by decide)
  by_cases h5 : c = '\x0b'
  · subst h5; exact absurd h (by decide)
  by_cases h6 : c = '\x0c'
  · subst h6; exact absurd h (by decide)
  simp [isPySpace, h1, h2, h3, h4, h5, h6]

theorem isDigit_ne_plus {c : Char} (h : c.isDigit = true) : ¬c = '+' := by
  intro he; subst he; simp [Char.isDigit] at h

theorem isDigit_ne_minus {c : Char} (h : c.isDigit = true) : ¬c = '-' := by
  intro he; subst he; simp [Char.isDigit] at h

theorem isDigit_ne_dot {c : Char} (h : c.isDigit = true) : ¬c = '.' := by
  intro he; subst he; simp [Char.isDigit] at h

theorem dropWhile_eq_self_of_none {p : Char → Bool} {cs : List Char}
    (h : ∀ c ∈ cs, p c = false) : cs.dropWhile p = cs := by
  cases cs with
  | nil => rfl
  | cons c cs =>
    rw [List.dropWhile_cons, h c (List.mem_cons_self _ _)]
    simp

theorem pyStrip_id {cs : List Char} (h : ∀ c ∈ cs, isPySpace c = false) :
    pyStrip cs = cs := by
  unfold pyStrip
  rw [dropWhile_eq_self_of_none h]
  rw [dropWhile_eq_self_of_none (fun c hc => h c (List.mem_reverse.1 hc))]
  exact List.reverse_reverse cs

theorem pyIntParse_digits (cs : List Char) (hne : cs ≠ [])
    (h : ∀ c ∈ cs, c.isDigit = true) :
    pyIntParse cs = some ((digitsVal cs : Nat) : Int) := by
  unfold pyIntParse
  rw [pyStrip_id (fun c hc => isDigit_not_space (h c hc))]
  cases cs with
  | nil => exact absurd rfl hne
  | cons c cs =>
    have hc : c.isDigit = true := h c (List.mem_cons_self _ _)
    show (if c = '+' then _ else if c = '-' then _ else (pud (c :: cs)).map (fun n => (n : Int))) = _
    rw [if_neg (isDigit_ne_plus hc), if_neg (isDigit_ne_minus hc)]
    rw [pud_digits _ (by simp) h]
    rfl

theorem pyIntParse_natDigits (n : Nat) : pyIntParse (natDigits n) = some (n : Int) := by
  rw [pyIntParse_digits _ (natDigits_ne_nil n) (natDigits_all_digit n), natDigits_val]

theorem splitDot_cons_ne {c : Char} (cs : List Char) (h : ¬c = '.') :
    splitDot (c :: cs) =
      match splitDot cs with
      | [] => [[c]]
      | p :: ps => (c :: p) :: ps := by
  simp only [splitDot]
  rw [if_neg h]

theorem splitDot_noDot {cs : List Char} (h : ∀ c ∈ cs, ¬c = '.') :
    splitDot cs = [cs] := by
  induction cs with
  | nil => rfl
  | cons c cs ih =>
    rw [splitDot_cons_ne _ (h c (List.mem_cons_self _ _))]
    rw [ih (fun d hd => h d (List.mem_cons_of_mem _ hd))]

theorem splitDot_append {d rest : List Char} (h : ∀ c ∈ d, ¬c = '.') :
    splitDot (d ++ '.' :: rest) = d :: splitDot rest := by
  induction d with
  | nil =>
    show splitDot ('.' :: rest) = [] :: splitDot rest
    simp [splitDot]
  | cons c d ih =>
    show splitDot (c :: (d ++ '.' :: rest)) = (c :: d) :: splitDot rest
    rw [splitDot_cons_ne _ (h c (List.mem_cons_self _ _))]
    rw [ih (fun e he => h e (List.mem_cons_of_mem _ he))]

/-- Parsing a nonempty all-digit dotted triple `d1.d2.d3` succeeds and gives
the three digit values (in particular, non-negative components). -/
theorem parse_digit_triple {d1 d2 d3 : List Char}
    (h1 : d1 ≠ []) (h2 : d2 ≠ []) (h3 : d3 ≠ [])
    (g1 : ∀ c ∈ d1, c.isDigit = true) (g2 : ∀ c ∈ d2, c.isDigit = true)
    (g3 : ∀ c ∈ d3, c.isDigit = true) :
    SemVer.parse (String.mk (d1 ++ ('.' :: (d2 ++ '.' :: d3)))) =
      .ok ⟨(digitsVal d1 : Nat), (digitsVal d2 : Nat), (digitsVal d3 : Nat)⟩ := by
  have hall : ∀ c ∈ d1 ++ ('.' :: (d2 ++ '.' :: d3)), isPySpace c = false := by
    intro c hc
    simp only [List.mem_append, List.mem_cons] at hc
    rcases hc with h | h | h | h | h
    · exact isDigit_not_space (g1 c h)
    · subst h; decide
    · exact isDigit_not_space (g2 c h)
    · subst h; decide
    · exact isDigit_not_space (g3 c h)
  unfold SemVer.parse
  simp only [String.data]
  rw [pyStrip_id hall]
  rw [splitDot_append (fun c hc => isDigit_ne_dot (g1 c hc))]
  rw [splitDot_append (fun c hc => isDigit_ne_dot (g2 c hc))]
  rw [splitDot_noDot (fun c hc => isDigit_ne_dot (g3 c hc))]
  simp only [pyIntParse_digits _ h1 g1, pyIntParse_digits _ h2 g2, pyIntParse_digits _ h3 g3]

/-- C1: Bumping a version with kind `major`, `minor` or `patch` increments
the targeted component, zeroes every lower-significance component, and
leaves the higher-significance components unchanged, for every version with
non-negative components. -/
theorem bump_spec (a b c : Int) (_ : 0 ≤ a) (_ : 0 ≤ b) (_ : 0 ≤ c) :
    (SemVer.mk a b c).bump "major" = .ok ⟨a + 1, 0, 0⟩ ∧
    (SemVer.mk a b c).bump "minor" = .ok ⟨a, b + 1, 0⟩ ∧
    (SemVer.mk a b c).bump "patch" = .ok ⟨a, b, c + 1⟩ :=
  ⟨rfl, rfl, rfl⟩

/-- Witness for C1 at the concrete version `(1, 2, 3)`. -/
theorem bump_spec_witness :
    (SemVer.mk 1 2 3).bump "major" = .ok ⟨2, 0, 0⟩ ∧
    (SemVer.mk 1 2 3).bump "minor" = .ok ⟨1, 3, 0⟩ ∧
    (SemVer.mk 1 2 3).bump "patch" = .ok ⟨1, 2, 4⟩ :=
  bump_spec 1 2 3 (by decide) (by decide) (by decide)

/-- C8: Rendering a version with non-negative components to its dotted
decimal string and parsing it back yields the same version. -/
theorem parse_str_roundtrip (v : SemVer)
    (h1 : 0 ≤ v.major) (h2 : 0 ≤ v.minor) (h3 : 0 ≤ v.patch) :
    SemVer.parse v.str = .ok v := by
  obtain ⟨a, b, c⟩ := v
  simp only [SemVer.str]
  have e1 : intRenderL a = natDigits a.toNat := by
    rw [intRenderL, if_neg (not_lt.2 h1)]
  have e2 : intRenderL b = natDigits b.toNat := by
    rw [intRenderL, if_neg (not_lt.2 h2)]
  have e3 : intRenderL c = natDigits c.toNat := by
    rw [intRenderL, if_neg (not_lt.2 h3)]
  rw [e1, e2, e3]
  rw [show natDigits a.toNat ++ '.' :: natDigits b.toNat ++ '.' :: natDigits c.toNat
      = natDigits a.toNat ++ ('.' :: (natDigits b.toNat ++ '.' :: natDigits c.toNat)) by
    simp [List.append_assoc]]
  rw [parse_digit_triple (natDigits_ne_nil _) (natDigits_ne_nil _) (natDigits_ne_nil _)
    (natDigits_all_digit _) (natDigits_all_digit _) (natDigits_all_digit _)]
  simp only [natDigits_val]
  rw [Int.toNat_of_nonneg h1, Int.toNat_of_nonneg h2, Int.toNat_of_nonneg h3]

/-- Witness for C8 at the concrete version `(10, 0, 23)`. -/
theorem parse_str_roundtrip_witness :
    SemVer.parse (SemVer.str ⟨10, 0, 23⟩) = .ok ⟨10, 0, 23⟩ :=
  parse_str_roundtrip ⟨10, 0, 23⟩ (by decide) (by decide) (by decide)

/-- C9 counterexample: `SemVer.parse` happily returns a version with a
negative component: `parse "1.-2.3"` succeeds with minor component `-2`,
because Python `int` accepts a sign.  So not every result of `parse` has
non-negative components. -/
theorem parse_negative_counterexample :
    SemVer.parse "1.-2.3" = .ok ⟨1, -2, 3⟩ ∧ (-2 : Int) < 0 :=
  ⟨by decide, by decide⟩

/-! ### The embedded regular expressions -/

/-- Case-insensitive literal match: `pat` (given lower-case) is consumed
from the head of `cs`; returns the remainder. -/
def stripCI : List Char → List Char → Option (List Char)
  | [], cs => some cs
  | _ :: _, [] => none
  | p :: ps, c :: cs => if lowerCh c = p then stripCI ps cs else none

/-- The literal pieces of `VERSION_RE`, `PACKAGE_ID_RE`, `IS_PACKABLE_RE`
(lower-case; matching is case-insensitive). -/
def vOpen : List Char := "<version>".data

def vClose : List Char := "</version>".data

def pidOpen : List Char := "<packageid>".data

def pidClose : List Char := "</packageid>".data

def ipOpen : List Char := "<ispackable>".data

def ipClose : List Char := "</ispackable>".data

/-- One attempt of `VERSION_RE = (<Version>\s*)(\d+\.\d+\.\d+)(\s*</Version>)`
(case-insensitive) at the head of `cs`.  The pattern is deterministic here:
`\s*` then `\d+` is a maximal whitespace run then a maximal digit run (the
classes are disjoint, and a shorter digit run would put a digit where `.` or
`\s*<` is required).  Returns `(group1, group2, group3, rest)`; `group1`
keeps the original casing (`cs.take 9` is the matched `<Version>` literal). -/
def matchVersionAt (cs : List Char) : Option (List Char × List Char × List Char × List Char) :=
  match stripCI vOpen cs with
  | none => none
  | some r1 =>
    let ws1 := r1.takeWhile isPySpace
    let r2 := r1.dropWhile isPySpace
    let d1 := r2.takeWhile Char.isDigit
    let r3 := r2.dropWhile Char.isDigit
    if d1.isEmpty then none
    else
      match r3 with
      | '.' :: r4 =>
        let d2 := r4.takeWhile Char.isDigit
        let r5 := r4.dropWhile Char.isDigit
        if d2.isEmpty then none
        else
          match r5 with
          | '.' :: r6 =>
            let d3 := r6.takeWhile Char.isDigit
            let r7 := r6.dropWhile Char.isDigit
            if d3.isEmpty then none
            else
              let ws2 := r7.takeWhile isPySpace
              let r8 := r7.dropWhile isPySpace
              match stripCI vClose r8 with
              | none => none
              | some rest =>
                some (cs.take 9 ++ ws1, d1 ++ ('.' :: (d2 ++ '.' :: d3)), ws2 ++ r8.take 10, rest)
          | _ => none
      | _ => none

/-- All non-overlapping `VERSION_RE` matches, left to right (`finditer`):
the group-2 captures.  `fuel` bounds the scan; the text length suffices,
since every match consumes at least one character. -/
def finditerAux : Nat → List Char → List (List Char)
  | 0, _ => []
  | fuel + 1, cs =>
    match matchVersionAt cs with
    | some (_, g2, _, rest) => g2 :: finditerAux fuel rest
    | none =>
      match cs with
      | [] => []
      | _ :: t => finditerAux fuel t

/-- `extract_versions`: group 2 of every `VERSION_RE` match of the text. -/
def extract_versions (text : String) : List String :=
  (finditerAux text.data.length text.data).map String.mk

/-- `VERSION_RE.subn(repl, text)` with `repl = group1 ++ new ++ group3`:
the rewritten text and the number of replacements. -/
def subnAux (newv : List Char) : Nat → List Char → List Char × Nat
  | 0, cs => (cs, 0)
  | fuel + 1, cs =>
    match matchVersionAt cs with
    | some (g1, _, g3, rest) =>
      (g1 ++ newv ++ g3 ++ (subnAux newv fuel rest).1, (subnAux newv fuel rest).2 + 1)
    | none =>
      match cs with
      | [] => ([], 0)
      | c :: t => (c :: (subnAux newv fuel t).1, (subnAux newv fuel t).2)

/-- `replace_version`: rewrite every version declaration to `newv`. -/
def replace_version (text newv : String) : String × Nat :=
  (String.mk (subnAux newv.data text.data.length text.data).1,
   (subnAux newv.data text.data.length text.data).2)

/-- One attempt of `PACKAGE_ID_RE` / `IS_PACKABLE_RE` at the head of `cs`:
open tag (case-insensitive), then `\s*([^<]+)\s*` — together a nonempty run
of non-`<` characters — then the close tag.  Returns the raw run; the
script only ever uses `group(1).strip().lower()`, and the run differs from
group 1 only by surrounding whitespace, so the stripped values agree. -/
def matchTagAt (opn cls cs : List Char) : Option (List Char) :=
  match stripCI opn cs with
  | none => none
  | some r1 =>
    let run := r1.takeWhile (fun c => !(c = '<'))
    let r2 := r1.dropWhile (fun c => !(c = '<'))
    if run.isEmpty then none
    else
      match stripCI cls r2 with
      | none => none
      | some _ => some run

/-- `re.search`: the run of the leftmost tag match, scanning left to right. -/
def searchTag (opn cls : List Char) : Nat → List Char → Option (List Char)
  | 0, _ => none
  | fuel + 1, cs =>
    match matchTagAt opn cls cs with
    | some run => some run
    | none =>
      match cs with
      | [] => none
      | _ :: t => searchTag opn cls fuel t

/-- Whether `PACKAGE_ID_RE.search` finds a package identity declaration. -/
def hasPackageId (text : String) : Bool :=
  (searchTag pidOpen pidClose text.data.length text.data).isSome

/-- The run of the first `IS_PACKABLE_RE` match, if any. -/
def firstIsPackable (text : String) : Option (List Char) :=
  searchTag ipOpen ipClose text.data.length text.data

/-- `is_packable_csproj`: must have a `<PackageId>`, and the first
`<IsPackable>` declaration (if any) must not be `false`. -/
def is_packable_csproj (text : String) : Bool :=
  match searchTag pidOpen pidClose text.data.length text.data with
  | none => false
  | some _ =>
    match searchTag ipOpen ipClose text.data.length text.data with
    | some run => !(pyLower (pyStrip run) == "false".data)
    | none => true

/-- Modelled from the spec: scans every position of the text for an
`<IsPackable>` declaration whose stripped, lower-cased value is `false` —
the spec reads "must not explicitly declare itself non-packable" as a
property of the whole text, not only of the first declaration. -/
def declaresNotPackable (opnFuel : Nat) : List Char → Bool :=
  fun cs =>
    match opnFuel, cs with
    | 0, _ => false
    | fuel + 1, cs =>
      (match matchTagAt ipOpen ipClose cs with
       | some run => pyLower (pyStrip run) == "false".data
       | none => false) ||
      (match cs with
       | [] => false
       | _ :: t => declaresNotPackable fuel t)

/-- Modelled from the spec: the text somewhere explicitly declares
`<IsPackable>` with value `false` (case-insensitive, whitespace-tolerant). -/
def declares_ispackable_false (text : String) : Bool :=
  declaresNotPackable text.data.length text.data

/-- A convenient nonemptiness form of `¬ isEmpty`. -/
theorem ne_nil_of_not_isEmpty {α : Type} {l : List α} (h : ¬l.isEmpty = true) : l ≠ [] :=
  fun hn => h (by simp [hn])

/-- The manifest text refuting C2 as stated: it has a package identity and
explicitly declares `<IsPackable>false</IsPackable>`, yet the script
classifies it packable, because `re.search` only inspects the FIRST
`<IsPackable>` declaration, which says `true`. -/
def firstMatchManifest : String :=
  "<PackageId>A</PackageId><IsPackable>true</IsPackable><IsPackable>false</IsPackable>"

/-- C2 counterexample: a manifest with a `<PackageId>` that explicitly
declares `<IsPackable>false</IsPackable>` (after an earlier
`<IsPackable>true</IsPackable>`) is classified packable, so the claimed
"if and only if" fails. -/
theorem is_packable_counterexample :
    is_packable_csproj firstMatchManifest = true ∧
    hasPackageId firstMatchManifest = true ∧
    declares_ispackable_false firstMatchManifest = true :=
  ⟨by decide, by decide, by decide⟩

/-- C2 (amended): a manifest is packable iff its text contains a
`<PackageId>` declaration and the first `<IsPackable>` declaration, if any,
does not have value `false` after stripping and lower-casing.  (In
particular: `<PackageId>` with no `<IsPackable>` tag is packable, and a
first declaration of `false` makes it non-packable.) -/
theorem is_packable_iff (t : String) :
    is_packable_csproj t = true ↔
      (hasPackageId t = true ∧
        ∀ run, firstIsPackable t = some run → ¬pyLower (pyStrip run) = "false".data) := by
  unfold is_packable_csproj hasPackageId firstIsPackable
  cases hpid : searchTag pidOpen pidClose t.data.length t.data with
  | none => simp
  | some u =>
    cases hip : searchTag ipOpen ipClose t.data.length t.data with
    | none => simp
    | some run =>
      simp only [Option.isSome, Bool.not_eq_true', beq_eq_false_iff_ne, ne_eq,
        Option.some.injEq, true_and]
      constructor
      · intro h r hr; subst hr; simpa using h
      · intro h; simpa using h run rfl

/-- Group 2 of a `VERSION_RE` match always parses to a version with
non-negative components (it is three nonempty digit runs joined by dots). -/
theorem matchVersionAt_g2 {cs g1 g2 g3 rest : List Char}
    (h : matchVersionAt cs = some (g1, g2, g3, rest)) :
    ∃ w : SemVer, SemVer.parse (String.mk g2) = .ok w ∧
      0 ≤ w.major ∧ 0 ≤ w.minor ∧ 0 ≤ w.patch := by
  simp only [matchVersionAt] at h
  split at h
  · exact Option.noConfusion h
  next r1 heq1 =>
    split at h
    · exact Option.noConfusion h
    next hne1 =>
      split at h
      case h_2 => exact Option.noConfusion h
      next r4 =>
        split at h
        · exact Option.noConfusion h
        next hne2 =>
          split at h
          case h_2 => exact Option.noConfusion h
          next r6 =>
            split at h
            · exact Option.noConfusion h
            next hne3 =>
              split at h
              · exact Option.noConfusion h
              next rest' heq2 =>
                injection h with h
                injection h with hg1 h
                injection h with hg2 h
                injection h with hg3 hrest
                subst hg2
                rw [parse_digit_triple
                  (ne_nil_of_not_isEmpty hne1) (ne_nil_of_not_isEmpty hne2)
                  (ne_nil_of_not_isEmpty hne3)
                  (fun c hc => List.mem_takeWhile_imp hc)
                  (fun c hc => List.mem_takeWhile_imp hc)
                  (fun c hc => List.mem_takeWhile_imp hc)]
                exact ⟨_, rfl, Int.natCast_nonneg _, Int.natCast_nonneg _, Int.natCast_nonneg _⟩

/-- The defining step of the scan, stated once for rewriting. -/
theorem finditerAux_succ (fuel : Nat) (cs : List Char) :
    finditerAux (fuel + 1) cs =
      match matchVersionAt cs with
      | some (_, g2, _, rest) => g2 :: finditerAux fuel rest
      | none =>
        match cs with
        | [] => []
        | _ :: t => finditerAux fuel t := rfl

/-- Every capture produced by the `VERSION_RE` scan parses to a version
with non-negative components. -/
theorem finditerAux_g2 (fuel : Nat) : ∀ cs, ∀ g2 ∈ finditerAux fuel cs,
    ∃ w : SemVer, SemVer.parse (String.mk g2) = .ok w ∧
      0 ≤ w.major ∧ 0 ≤ w.minor ∧ 0 ≤ w.patch := by
  induction fuel with
  | zero => simp [finditerAux]
  | succ fuel ih =>
    intro cs g2 hg
    rw [finditerAux_succ] at hg
    split at hg
    next g1 g2' g3 rest heq =>
      rcases List.mem_cons.1 hg with h | h
      · subst h; exact matchVersionAt_g2 heq
      · exact ih _ _ h
    next =>
      split at hg
      · exact absurd hg (List.not_mem_nil _)
      · exact ih _ _ hg

/-- Following the spec words for C9: the string splits into exactly three
integer components (after stripping). -/
def splitsThreeInts (s : String) : Bool :=
  (splitDot (pyStrip s.data)).length == 3 &&
    (splitDot (pyStrip s.data)).all (fun p => (pyIntParse p).isSome)

/-- `SemVer.parse` succeeds exactly on strings that split into three
integer components. -/
theorem parse_isOk_iff (s : String) :
    (∃ w, SemVer.parse s = .ok w) ↔ splitsThreeInts s = true := by
  unfold SemVer.parse splitsThreeInts
  generalize splitDot (pyStrip s.data) = l
  match l with
  | [] => simp
  | [p1] => simp
  | [p1, p2] => simp
  | [p1, p2, p3] =>
    cases e1 : pyIntParse p1 with
    | none => simp [e1]
    | some a =>
      cases e2 : pyIntParse p2 with
      | none => simp [e1, e2]
      | some b =>
        cases e3 : pyIntParse p3 with
        | none => simp [e1, e2, e3]
        | some c => simp [e1, e2, e3]
  | p1 :: p2 :: p3 :: p4 :: ps => simp

/-- C9 (amended): every version the program builds from manifest text is
non-negative — each `VERSION_RE` capture parses to a version with
non-negative components, and `bump` preserves non-negativity — and `parse`
fails exactly on strings that do not split into three integer components.
(`parse` alone does accept signed components, see the counterexample.) -/
theorem program_versions_nonneg :
    (∀ t v, v ∈ extract_versions t →
      ∃ w : SemVer, SemVer.parse v = .ok w ∧ 0 ≤ w.major ∧ 0 ≤ w.minor ∧ 0 ≤ w.patch) ∧
    (∀ (v w : SemVer) (kind : String), v.bump kind = .ok w →
      0 ≤ v.major → 0 ≤ v.minor → 0 ≤ v.patch →
      0 ≤ w.major ∧ 0 ≤ w.minor ∧ 0 ≤ w.patch) ∧
    (∀ s : String, (∃ w, SemVer.parse s = .ok w) ↔ splitsThreeInts s = true) := by
  refine ⟨?_, ?_, parse_isOk_iff⟩
  · intro t v hv
    obtain ⟨g2, hg2, hmk⟩ := List.mem_map.1 hv
    subst hmk
    exact finditerAux_g2 _ _ _ hg2
  · intro v w kind hb h1 h2 h3
    simp only [SemVer.bump] at hb
    split_ifs at hb
    all_goals first
      | exact Except.noConfusion hb
      | (injection hb with hb; subst hb;
         refine ⟨?_, ?_, ?_⟩ <;> simp only [SemVer.major, SemVer.minor, SemVer.patch] <;> omega)

/-! ### Sorting (Python `sorted`) -/

/-- Python string comparison: lexicographic by code point. -/
def lexLt : List Char → List Char → Bool
  | [], [] => false
  | [], _ :: _ => true
  | _ :: _, [] => false
  | a :: as, b :: bs =>
    if a.toNat < b.toNat then true
    else if b.toNat < a.toNat then false
    else lexLt as bs

/-- Insert into an ascending list, before the first element not below it
(this makes the sort stable, like Python `sorted`). -/
def insertLe {α : Type} (le : α → α → Bool) (x : α) : List α → List α
  | [] => [x]
  | y :: ys => if le x y then x :: y :: ys else y :: insertLe le x ys

/-- Stable ascending insertion sort (Python `sorted`). -/
def insertionSort {α : Type} (le : α → α → Bool) : List α → List α
  | [] => []
  | x :: xs => insertLe le x (insertionSort le xs)

/-- `sorted(projects, key=lambda x: x.as_posix())` over (path, content)
pairs; the path component is already the posix path string. -/
def sortByPath (ps : List (String × String)) : List (String × String) :=
  insertionSort (fun a b => !lexLt b.1.data a.1.data) ps

/-- `sorted` over a list of names. -/
def sortStr (l : List String) : List String :=
  insertionSort (fun a b => !lexLt b.data a.data) l

/-! ### `choose_base_version` -/

/-- The scan of `choose_base_version` over the already-sorted projects. -/
def chooseBaseGo : List (String × String) → Except String SemVer
  | [] => .error "No <Version>x.y.z</Version> found in any targeted .csproj files."
  | (_, text) :: rest =>
    match extract_versions text with
    | [] => chooseBaseGo rest
    | v :: _ => SemVer.parse v

/-- `choose_base_version`: scan the projects in lexicographic path order and
parse the first version declaration of the first project that has one. -/
def choose_base_version (projects : List (String × String)) : Except String SemVer :=
  chooseBaseGo (sortByPath projects)

/-- Concatenation of a list of lists. -/
def flat {α : Type} : List (List α) → List α
  | [] => []
  | x :: xs => x ++ flat xs

/-- C6: the chosen base version is the parse of the head of the
concatenation of all version declarations in lexicographic path order —
i.e. the first declaration of the first manifest that has one — and the
scan fails with the no-version-found error iff no manifest has any. -/
theorem choose_base_version_spec (projects : List (String × String)) :
    choose_base_version projects =
      match (flat ((sortByPath projects).map (fun pr => extract_versions pr.2))).head? with
      | some v => SemVer.parse v
      | none => .error "No <Version>x.y.z</Version> found in any targeted .csproj files." := by
  unfold choose_base_version
  generalize sortByPath projects = l
  induction l with
  | nil => rfl
  | cons pr rest ih =>
    obtain ⟨path, text⟩ := pr
    show chooseBaseGo ((path, text) :: rest) = _
    unfold chooseBaseGo
    cases e : extract_versions text with
    | nil =>
      rw [ih]
      simp [flat, e]
    | cons v vs =>
      simp [flat, e]

/-! ### `find_repo_root` -/

/-- The upward walk of `find_repo_root` from one start.  Directories are
component lists, innermost first: the parent of `c :: t` is `t`, and the
parent of the filesystem root `[]` is itself, which ends the walk.  The
`visited` set is shared between the two starts, exactly as in the script. -/
def walkUp (hasSln : List String → Bool) (visited : List (List String)) :
    List String → List (List String) × Option (List String)
  | [] =>
    if [] ∈ visited then (visited, none)
    else if hasSln [] then ([] :: visited, some [])
    else ([] :: visited, none)
  | c :: t =>
    if (c :: t) ∈ visited then (visited, none)
    else if hasSln (c :: t) then ((c :: t) :: visited, some (c :: t))
    else walkUp hasSln ((c :: t) :: visited) t

/-- `find_repo_root`: walk upward from the working directory, then from the
script directory, sharing the visited set; `none` models the fatal
root-not-found `RuntimeError`. -/
def find_repo_root (hasSln : List String → Bool) (cwd scriptDir : List String) :
    Option (List String) :=
  match walkUp hasSln [] cwd with
  | (_, some r) => some r
  | (visited, none) => (walkUp hasSln visited scriptDir).2

/-- The ancestor chain of a directory: itself, its parent, …, the root. -/
def ancestors : List String → List (List String)
  | [] => [[]]
  | c :: t => (c :: t) :: ancestors t

theorem self_mem_ancestors (p : List String) : p ∈ ancestors p := by
  cases p <;> exact List.mem_cons_self _ _

theorem length_le_of_mem_ancestors {a p : List String} (h : a ∈ ancestors p) :
    a.length ≤ p.length := by
  induction p with
  | nil => simp [ancestors] at h; simp [h]
  | cons c t ih =>
    rcases List.mem_cons.1 h with h | h
    · simp [h]
    · have := ih h
      simp
      omega

theorem ancestors_sub {v p : List String} (h : v ∈ ancestors p) :
    ∀ a ∈ ancestors v, a ∈ ancestors p := by
  induction p with
  | nil =>
    simp [ancestors] at h
    subst h
    exact fun a ha => ha
  | cons c t ih =>
    rcases List.mem_cons.1 h with h | h
    · subst h; exact fun a ha => ha
    · exact fun a ha => List.mem_cons_of_mem _ (ih h a ha)

/-- On a visited set that is qualifying-free, and ancestor-closed for every
member lying on the remaining chain, the walk returns the first qualifying
ancestor. -/
theorem walkUp_eq (hasSln : List String → Bool) :
    ∀ (p : List String) (visited : List (List String)),
      (∀ v ∈ visited, hasSln v = false) →
      (∀ v ∈ visited, v ∈ ancestors p → ∀ a ∈ ancestors v, a ∈ visited) →
      (walkUp hasSln visited p).2 = (ancestors p).find? hasSln := by
  intro p
  induction p with
  | nil =>
    intro visited hF hC
    unfold walkUp
    by_cases hv : [] ∈ visited
    · rw [if_pos hv]
      have : (ancestors []).find? hasSln = none := by
        rw [List.find?_eq_none]
        intro x hx
        rcases List.mem_cons.1 hx with h | h
        · subst h; simp [hF [] hv]
        · simp [ancestors] at h
      rw [this]
    · rw [if_neg hv]
      by_cases hs : hasSln [] = true
      · rw [if_pos hs]
        show some [] = (ancestors []).find? hasSln
        rw [show ancestors [] = [[]] from rfl, List.find?_cons_of_pos _ hs]
      · rw [if_neg hs]
        show none = (ancestors []).find? hasSln
        rw [show ancestors [] = [[]] from rfl,
          List.find?_cons_of_neg _ hs]
        rfl
  | cons c t ih =>
    intro visited hF hC
    unfold walkUp
    by_cases hv : (c :: t) ∈ visited
    · rw [if_pos hv]
      have : (ancestors (c :: t)).find? hasSln = none := by
        rw [List.find?_eq_none]
        intro x hx
        have hxv : x ∈ visited := hC _ hv (self_mem_ancestors _) x hx
        simp [hF x hxv]
      rw [this]
    · rw [if_neg hv]
      by_cases hs : hasSln (c :: t) = true
      · rw [if_pos hs]
        show some (c :: t) = (ancestors (c :: t)).find? hasSln
        rw [show ancestors (c :: t) = (c :: t) :: ancestors t from rfl,
          List.find?_cons_of_pos _ hs]
      · rw [if_neg hs]
        have hF' : ∀ v ∈ (c :: t) :: visited, hasSln v = false := by
          intro v hvv
          rcases List.mem_cons.1 hvv with h | h
          · subst h; simpa using hs
          · exact hF v h
        have hC' : ∀ v ∈ (c :: t) :: visited, v ∈ ancestors t →
            ∀ a ∈ ancestors v, a ∈ (c :: t) :: visited := by
          intro v hvv hvt a ha
          rcases List.mem_cons.1 hvv with h | h
          · subst h
            have := length_le_of_mem_ancestors hvt
            simp at this
          · exact List.mem_cons_of_mem _
              (hC v h (List.mem_cons_of_mem _ hvt) a ha)
        rw [ih _ hF' hC']
        rw [show ancestors (c :: t) = (c :: t) :: ancestors t from rfl,
          List.find?_cons_of_neg _ hs]

/-- When the walk starts outside its own ancestor chain and fails, the
final visited set is exactly that chain (in visit order) on top of the
initial one. -/
theorem walkUp_none_visited (hasSln : List String → Bool) :
    ∀ (p : List String) (visited : List (List String)),
      (∀ a ∈ ancestors p, a ∉ visited) →
      (walkUp hasSln visited p).2 = none →
      (walkUp hasSln visited p).1 = (ancestors p).reverse ++ visited := by
  intro p
  induction p with
  | nil =>
    intro visited hD hN
    unfold walkUp at hN ⊢
    have hv : ¬([] : List String) ∈ visited := hD [] (self_mem_ancestors _)
    rw [if_neg hv] at hN ⊢
    by_cases hs : hasSln [] = true
    · rw [if_pos hs] at hN
      exact absurd hN (by simp)
    · rw [if_neg hs]
      show [] :: visited = (ancestors []).reverse ++ visited
      rfl
  | cons c t ih =>
    intro visited hD hN
    unfold walkUp at hN ⊢
    have hv : ¬(c :: t) ∈ visited := hD _ (self_mem_ancestors _)
    rw [if_neg hv] at hN ⊢
    by_cases hs : hasSln (c :: t) = true
    · rw [if_pos hs] at hN
      exact absurd hN (by simp)
    · rw [if_neg hs] at hN ⊢
      have hD' : ∀ a ∈ ancestors t, a ∉ (c :: t) :: visited := by
        intro a ha hmem
        rcases List.mem_cons.1 hmem with h | h
        · subst h
          have := length_le_of_mem_ancestors ha
          simp at this
        · exact hD a (List.mem_cons_of_mem _ ha) h
      rw [ih _ hD' hN]
      rw [show ancestors (c :: t) = (c :: t) :: ancestors t from rfl]
      simp

/-- C7: root resolution returns the first directory with a solution
descriptor along the concatenation of the two ancestor chains — working
directory origin first, then the script origin, each ordered by increasing
depth — and returns nothing exactly when neither chain has one. -/
theorem find_repo_root_spec (hasSln : List String → Bool) (cwd scriptDir : List String) :
    find_repo_root hasSln cwd scriptDir =
      (ancestors cwd ++ ancestors scriptDir).find? hasSln := by
  unfold find_repo_root
  have h1 : (walkUp hasSln [] cwd).2 = (ancestors cwd).find? hasSln :=
    walkUp_eq hasSln cwd [] (by simp) (by simp)
  rcases e : walkUp hasSln [] cwd with ⟨visited, r⟩
  rw [e] at h1
  cases r with
  | some root =>
    rw [List.find?_append, ← h1]
    rfl
  | none =>
    have hNone : (ancestors cwd).find? hasSln = none := h1.symm
    have hvis : visited = (ancestors cwd).reverse ++ [] := by
      have := walkUp_none_visited hasSln cwd [] (by simp) (by rw [e])
      rw [e] at this
      exact this
    simp only [List.append_nil] at hvis
    subst hvis
    have hAllFalse : ∀ x ∈ ancestors cwd, hasSln x = false := by
      intro x hx
      have := List.find?_eq_none.1 hNone x hx
      simpa using this
    have h2 : (walkUp hasSln (ancestors cwd).reverse scriptDir).2 =
        (ancestors scriptDir).find? hasSln := by
      refine walkUp_eq hasSln scriptDir (ancestors cwd).reverse ?_ ?_
      · intro v hvv
        exact hAllFalse v (List.mem_reverse.1 hvv)
      · intro v hvv _ a ha
        rw [List.mem_reverse] at hvv ⊢
        exact ancestors_sub hvv a ha
    show (walkUp hasSln (ancestors cwd).reverse scriptDir).2 =
      List.find? hasSln (ancestors cwd ++ ancestors scriptDir)
    rw [h2, List.find?_append, hNone]
    rfl

/-! ### The pipeline -/

/-- Observable effects of a run, in chronological order: stdout lines,
stderr lines, the echoed (redacted) command line of `run`, a subprocess
invocation, a manifest write, and the cleaning of the output directory. -/
inductive Eff where
  | out (s : String)
  | err (s : String)
  | echo (parts : List String)
  | exec (cmd : List String)
  | write (path content : String)
  | cleanOutDir
  deriving DecidableEq

/-- A Python exception of the script: a `RuntimeError`/`ValueError` message,
or a `CalledProcessError` carrying the failed command's exit code. -/
inductive PErr where
  | msg (s : String)
  | cmd (code : Nat)
  deriving DecidableEq

/-- How the process ends: a return code from `main`, an uncaught message
exception, or a failed external command (the `__main__` handler logs and
re-raises both exception kinds). -/
inductive Outcome where
  | exited (code : Nat)
  | errored (msg : String)
  | cmdFailed (code : Nat)
  deriving DecidableEq

/-- `" ".join`. -/
def joinSpace : List String → String
  | [] => ""
  | [s] => s
  | s :: rest => s ++ " " ++ joinSpace rest

/-- The echoed parts of a command: every part equal to a non-empty redacted
value prints as `****`. -/
def redactParts (cmd redacts : List String) : List String :=
  cmd.map (fun part => if part ∈ redacts ∧ ¬part = "" then "****" else part)

/-- The stdout line `run` prints for a command. -/
def echoLine (parts : List String) : String := "> " ++ joinSpace parts

/-- `run`: echo the redacted command, invoke it, observe the exit code
through the oracle. -/
def runStep (extCode : List String → Nat) (cmd redacts : List String) :
    List Eff × Nat :=
  ([.echo (redactParts cmd redacts), .exec cmd], extCode cmd)

/-- Module constant `NUGET_SOURCE`. -/
def NUGET_SOURCE : String := "https://api.nuget.org/v3/index.json"

/-- Module constant `ARTIFACTS_DIR`, rendered root-relative as the script
renders it in commands and messages. -/
def ARTIFACTS_DIR : String := "artifacts/nuget/_publish"

/-- The rewrite loop of `bump_versions_in_projects` over the discovered
manifests, in discovery order: fail on a manifest without a version
declaration (or, unreachably, zero replacements); write back only files
whose text changed.  Returns the on-disk contents after the loop, the
effects, and the changed paths. -/
def bumpLoop (newvStr : String) :
    List (String × String) → List (String × String) × List Eff × Except String (List String)
  | [] => ([], [], .ok [])
  | (p, old) :: rest =>
    if extract_versions old = [] then
      ((p, old) :: rest, [], .error ("Missing <Version> in: " ++ p))
    else if (replace_version old newvStr).2 = 0 then
      ((p, old) :: rest, [], .error ("Failed to replace <Version> in: " ++ p))
    else if ¬(replace_version old newvStr).1 = old then
      ((p, (replace_version old newvStr).1) :: (bumpLoop newvStr rest).1,
       Eff.write p (replace_version old newvStr).1 ::
         Eff.out ("Updated: " ++ p ++ " (replacements: " ++
           natRender (replace_version old newvStr).2 ++ ")") :: (bumpLoop newvStr rest).2.1,
       ((bumpLoop newvStr rest).2.2).map fun ch => p :: ch)
    else
      ((p, old) :: (bumpLoop newvStr rest).1,
       Eff.out ("Unchanged: " ++ p) :: (bumpLoop newvStr rest).2.1,
       (bumpLoop newvStr rest).2.2)

/-- `bump_versions_in_projects`: choose the base version, bump it, rewrite
every discovered manifest. -/
def bump_versions_in_projects (fs : List (String × String)) (kind : String) :
    List (String × String) × List Eff × Except String (SemVer × SemVer × List String) :=
  if fs = [] then
    (fs, [],
     .error "No .csproj files found in Source/Analyzers, Source/CodeAnalysis, Source/CodeFix.")
  else
    match choose_base_version fs with
    | .error e => (fs, [], .error e)
    | .ok base =>
      match base.bump kind with
      | .error e => (fs, [], .error e)
      | .ok newv =>
        ((bumpLoop (SemVer.str newv) fs).1,
         Eff.out ("Version bump: " ++ SemVer.str base ++ " -> " ++ SemVer.str newv) ::
           (bumpLoop (SemVer.str newv) fs).2.1,
         ((bumpLoop (SemVer.str newv) fs).2.2).map fun ch => (base, newv, ch))

/-- The pack command for one project. -/
def packCmd (path : String) : List String :=
  ["dotnet", "pack", path, "-c", "Release", "-o", ARTIFACTS_DIR]

/-- The per-project loop of `pack_projects`. -/
def packLoop (extCode : List String → Nat) :
    List (String × String) → List Eff × Except PErr Unit
  | [] => ([], .ok ())
  | pr :: rest =>
    if ¬extCode (packCmd pr.1) = 0 then
      ((runStep extCode (packCmd pr.1) []).1, .error (.cmd (extCode (packCmd pr.1))))
    else
      ((runStep extCode (packCmd pr.1) []).1 ++ (packLoop extCode rest).1,
       (packLoop extCode rest).2)

/-- `pack_projects`: pack every packable discovered project into the output
directory, then require at least one produced artifact (`glob` results are
the oracle list `produced`, which the script sorts). -/
def pack_projects (fs : List (String × String)) (produced : List String)
    (extCode : List String → Nat) : List Eff × Except PErr (List String) :=
  if fs.filter (fun pr => is_packable_csproj pr.2) = [] then
    ([], .error (.msg "No packable projects found (no .csproj with <PackageId> in the target folders)."))
  else
    let header := Eff.out "Packable projects:" ::
      (fs.filter fun pr => is_packable_csproj pr.2).map fun pr => Eff.out ("  - " ++ pr.1)
    match (packLoop extCode (fs.filter fun pr => is_packable_csproj pr.2)).2 with
    | .error e => (header ++ (packLoop extCode (fs.filter fun pr => is_packable_csproj pr.2)).1, .error e)
    | .ok _ =>
      if sortStr produced = [] then
        (header ++ (packLoop extCode (fs.filter fun pr => is_packable_csproj pr.2)).1,
         .error (.msg ("No packages produced in " ++ ARTIFACTS_DIR)))
      else
        (header ++ (packLoop extCode (fs.filter fun pr => is_packable_csproj pr.2)).1,
         .ok (sortStr produced))

/-- Python `str.endswith`. -/
def strEndsWith (s suf : String) : Bool := suf.data.isSuffixOf s.data

/-- The push command for one artifact. -/
def pushCmd (apiKey name : String) : List String :=
  ["dotnet", "nuget", "push", ARTIFACTS_DIR ++ "/" ++ name, "--api-key", apiKey,
   "--source", NUGET_SOURCE, "--skip-duplicate"]

/-- The per-artifact loop of `push_packages`. -/
def pushLoop (extCode : List String → Nat) (apiKey : String) :
    List String → List Eff × Except PErr Unit
  | [] => ([], .ok ())
  | name :: rest =>
    if ¬extCode (pushCmd apiKey name) = 0 then
      (Eff.out ("Pushing: " ++ name) :: (runStep extCode (pushCmd apiKey name) [apiKey]).1,
       .error (.cmd (extCode (pushCmd apiKey name))))
    else
      (Eff.out ("Pushing: " ++ name) ::
        ((runStep extCode (pushCmd apiKey name) [apiKey]).1 ++ (pushLoop extCode apiKey rest).1),
       (pushLoop extCode apiKey rest).2)

/-- Push order: primary packages (`.nupkg`, excluding `.symbols.nupkg`)
sorted, then symbol packages (`.snupkg`) sorted. -/
def pushOrder (packages : List String) : List String :=
  sortStr (packages.filter fun n => strEndsWith n ".nupkg" && !strEndsWith n ".symbols.nupkg") ++
    sortStr (packages.filter fun n => strEndsWith n ".snupkg")

/-- `push_packages`. -/
def push_packages (extCode : List String → Nat) (apiKey : String)
    (packages : List String) : List Eff × Except PErr Unit :=
  pushLoop extCode apiKey (pushOrder packages)

/-- `git_commit_version_bump`: require a `.git` directory, skip silently on
an empty change set, otherwise stage exactly the changed files and commit
with the upper-cased bump kind in the message. -/
def git_commit_version_bump (extCode : List String → Nat) (gitDir : Bool)
    (changed : List String) (kind : String) : List Eff × Except PErr Unit :=
  if ¬gitDir then
    ([], .error (.msg "Expected a git repository (no .git directory found). Refusing to commit."))
  else if changed = [] then
    ([Eff.out "No csproj files changed; skipping git commit."], .ok ())
  else if ¬extCode (["git", "add", "--"] ++ changed) = 0 then
    ((runStep extCode (["git", "add", "--"] ++ changed) []).1,
     .error (.cmd (extCode (["git", "add", "--"] ++ changed))))
  else if ¬extCode ["git", "commit", "-m",
      "[" ++ String.mk (pyUpper kind.data) ++ "] Analyzer Upgrade"] = 0 then
    ((runStep extCode (["git", "add", "--"] ++ changed) []).1 ++
      (runStep extCode ["git", "commit", "-m",
        "[" ++ String.mk (pyUpper kind.data) ++ "] Analyzer Upgrade"] []).1,
     .error (.cmd (extCode ["git", "commit", "-m",
       "[" ++ String.mk (pyUpper kind.data) ++ "] Analyzer Upgrade"])))
  else
    ((runStep extCode (["git", "add", "--"] ++ changed) []).1 ++
      (runStep extCode ["git", "commit", "-m",
        "[" ++ String.mk (pyUpper kind.data) ++ "] Analyzer Upgrade"] []).1,
     .ok ())

/-- Rendering of a directory for messages (components are stored innermost
first). -/
def renderDir (d : List String) : String := String.intercalate "/" d.reverse

/-- `find_solution_file`: sort the globbed `*.sln` names, fail if none,
warn (to stderr) and pick the first if several. -/
def find_solution_file (root : List String) (slnGlob : List String) :
    List Eff × Except String String :=
  match sortStr slnGlob with
  | [] => ([], .error ("No .sln found in repo root: " ++ renderDir root))
  | s :: rest =>
    (if ¬rest = [] then
      [Eff.err ("Warning: multiple .sln files found in " ++ renderDir root ++ ". Using: " ++ s)]
     else [], .ok s)

/-- One run's inputs: the argv; the two walk origins and the directory
predicate for `*.sln`; the `*.sln` names globbed in the resolved root; the
discovered `.csproj` files (root-relative path, content) in discovery
order, with distinct paths (the script de-duplicates by resolved path);
whether `.git` exists at root; the exit-code oracle for external commands;
and the artifact names the pack stage leaves in the output directory. -/
structure Config where
  argv : List String
  cwd : List String
  scriptDir : List String
  hasSln : List String → Bool
  slnGlob : List String
  fs0 : List (String × String)
  gitDir : Bool
  extCode : List String → Nat
  produced : List String

/-- Stage 1 of `main`: in a bump mode, run the version rewrite and log the
new version; in publish-only mode, leave the manifests alone.  Returns the
on-disk contents, the effects, and the changed paths (or the exception). -/
def versionStage (cfg : Config) (mode : String) :
    List (String × String) × List Eff × Except PErr (List String) :=
  if ¬mode = "publish-only" then
    match (bump_versions_in_projects cfg.fs0 mode).2.2 with
    | .ok (_, newv, changed) =>
      ((bump_versions_in_projects cfg.fs0 mode).1,
       (bump_versions_in_projects cfg.fs0 mode).2.1 ++
         [Eff.out ("New version set to: " ++ SemVer.str newv)],
       .ok changed)
    | .error m =>
      ((bump_versions_in_projects cfg.fs0 mode).1,
       (bump_versions_in_projects cfg.fs0 mode).2.1, .error (.msg m))
  else
    (cfg.fs0,
     [Eff.out "publish-only: leaving versions unchanged; no git operations will be performed."],
     .ok [])

/-- Stages 2–5 of `main`: build, clean the output directory, pack, push,
and (bump modes only) commit. -/
def buildAndShip (cfg : Config) (mode apiKey sln : String)
    (fs1 : List (String × String)) (changed : List String) :
    List Eff × Except PErr Nat :=
  if ¬cfg.extCode ["dotnet", "build", sln, "-c", "Release"] = 0 then
    ((runStep cfg.extCode ["dotnet", "build", sln, "-c", "Release"] []).1,
     .error (.cmd (cfg.extCode ["dotnet", "build", sln, "-c", "Release"])))
  else
    match (pack_projects fs1 cfg.produced cfg.extCode).2 with
    | .error e =>
      ((runStep cfg.extCode ["dotnet", "build", sln, "-c", "Release"] []).1 ++
        Eff.cleanOutDir :: (pack_projects fs1 cfg.produced cfg.extCode).1, .error e)
    | .ok packages =>
      match (push_packages cfg.extCode apiKey packages).2 with
      | .error e =>
        ((runStep cfg.extCode ["dotnet", "build", sln, "-c", "Release"] []).1 ++
          Eff.cleanOutDir :: ((pack_projects fs1 cfg.produced cfg.extCode).1 ++
            (push_packages cfg.extCode apiKey packages).1), .error e)
      | .ok _ =>
        if ¬mode = "publish-only" then
          match (git_commit_version_bump cfg.extCode cfg.gitDir changed mode).2 with
          | .error e =>
            ((runStep cfg.extCode ["dotnet", "build", sln, "-c", "Release"] []).1 ++
              Eff.cleanOutDir :: ((pack_projects fs1 cfg.produced cfg.extCode).1 ++
                (push_packages cfg.extCode apiKey packages).1 ++
                (git_commit_version_bump cfg.extCode cfg.gitDir changed mode).1), .error e)
          | .ok _ =>
            ((runStep cfg.extCode ["dotnet", "build", sln, "-c", "Release"] []).1 ++
              Eff.cleanOutDir :: ((pack_projects fs1 cfg.produced cfg.extCode).1 ++
                (push_packages cfg.extCode apiKey packages).1 ++
                (git_commit_version_bump cfg.extCode cfg.gitDir changed mode).1 ++
                [Eff.out "Done."]), .ok 0)
        else
          ((runStep cfg.extCode ["dotnet", "build", sln, "-c", "Release"] []).1 ++
            Eff.cleanOutDir :: ((pack_projects fs1 cfg.produced cfg.extCode).1 ++
              (push_packages cfg.extCode apiKey packages).1 ++ [Eff.out "Done."]), .ok 0)

/-- The body of `main(argv)`: the effects, the on-disk manifest contents
after the run, and the return code or the uncaught exception. -/
def mainBody (cfg : Config) : List Eff × List (String × String) × Except PErr Nat :=
  match cfg.argv with
  | [_, a1, a2] =>
    if ¬(String.mk (pyStrip (pyLower a1.data)) = "major" ∨
         String.mk (pyStrip (pyLower a1.data)) = "minor" ∨
         String.mk (pyStrip (pyLower a1.data)) = "patch" ∨
         String.mk (pyStrip (pyLower a1.data)) = "publish-only") then
      ([.err "Refusing to run.",
        .err "First argument must be one of: major, minor, patch, publish-only"],
       cfg.fs0, .ok 2)
    else if String.mk (pyStrip a2.data) = "" then
      ([.err "Refusing to run: api_key is empty."], cfg.fs0, .ok 2)
    else
      match find_repo_root cfg.hasSln cfg.cwd cfg.scriptDir with
      | none =>
        ([], cfg.fs0,
         .error (.msg "Could not find repo root (a directory containing a *.sln) from cwd or script location."))
      | some root =>
        match (find_solution_file root cfg.slnGlob).2 with
        | .error m => ((find_solution_file root cfg.slnGlob).1, cfg.fs0, .error (.msg m))
        | .ok sln =>
          match (versionStage cfg (String.mk (pyStrip (pyLower a1.data)))).2.2 with
          | .error e =>
            ((find_solution_file root cfg.slnGlob).1 ++
              [Eff.out ("Repo root: " ++ renderDir root),
               Eff.out ("Solution:  " ++ sln),
               Eff.out ("Mode:      " ++ String.mk (pyStrip (pyLower a1.data)))] ++
              (versionStage cfg (String.mk (pyStrip (pyLower a1.data)))).2.1,
             (versionStage cfg (String.mk (pyStrip (pyLower a1.data)))).1, .error e)
          | .ok changed =>
            ((find_solution_file root cfg.slnGlob).1 ++
              [Eff.out ("Repo root: " ++ renderDir root),
               Eff.out ("Solution:  " ++ sln),
               Eff.out ("Mode:      " ++ String.mk (pyStrip (pyLower a1.data)))] ++
              (versionStage cfg (String.mk (pyStrip (pyLower a1.data)))).2.1 ++
              (buildAndShip cfg (String.mk (pyStrip (pyLower a1.data)))
                (String.mk (pyStrip a2.data)) sln
                (versionStage cfg (String.mk (pyStrip (pyLower a1.data)))).1 changed).1,
             (versionStage cfg (String.mk (pyStrip (pyLower a1.data)))).1,
             (buildAndShip cfg (String.mk (pyStrip (pyLower a1.data)))
               (String.mk (pyStrip a2.data)) sln
               (versionStage cfg (String.mk (pyStrip (pyLower a1.data)))).1 changed).2)
  | _ =>
    ([.err "Refusing to run.",
      .err "Usage: python zscripts/publish.py <major|minor|patch|publish-only> <api_key>"],
     cfg.fs0, .ok 2)

/-- The whole process (`main` under the `__main__` handler): on a message
exception print `Error: …` to stderr; on a failed command print
`Command failed with exit code …`; both re-raise, so the process fails. -/
def publishMain (cfg : Config) : List Eff × List (String × String) × Outcome :=
  match (mainBody cfg).2.2 with
  | .ok n => ((mainBody cfg).1, (mainBody cfg).2.1, .exited n)
  | .error (.msg m) =>
    ((mainBody cfg).1 ++ [.err ("Error: " ++ m)], (mainBody cfg).2.1, .errored m)
  | .error (.cmd c) =>
    ((mainBody cfg).1 ++ [.err ("Command failed with exit code " ++ natRender c ++ ".")],
     (mainBody cfg).2.1, .cmdFailed c)

/-! ### Observations over effect traces -/

/-- Whether an effect writes a manifest file. -/
def isWriteEff : Eff → Bool
  | .write _ _ => true
  | _ => false

/-- Whether an effect invokes the version-control tool. -/
def isGitExec : Eff → Bool
  | .exec cmd => cmd.head? == some "git"
  | _ => false

/-- The subprocess invocations of a trace, in order. -/
def execCmds (effs : List Eff) : List (List String) :=
  effs.filterMap fun e =>
    match e with
    | .exec c => some c
    | _ => none

/-- A trace that writes no file and invokes no version-control command. -/
def Tame (effs : List Eff) : Prop :=
  ∀ e ∈ effs, isWriteEff e = false ∧ isGitExec e = false

theorem tame_nil : Tame [] := by intro e he; cases he

theorem tame_append {l1 l2 : List Eff} (h1 : Tame l1) (h2 : Tame l2) :
    Tame (l1 ++ l2) := by
  intro e he
  rcases List.mem_append.1 he with h | h
  · exact h1 e h
  · exact h2 e h

theorem tame_cons {e : Eff} {l : List Eff} (h1 : isWriteEff e = false)
    (h2 : isGitExec e = false) (h : Tame l) : Tame (e :: l) := by
  intro x hx
  rcases List.mem_cons.1 hx with hx | hx
  · subst hx; exact ⟨h1, h2⟩
  · exact h x hx

theorem tame_out (s : String) {l : List Eff} (h : Tame l) : Tame (Eff.out s :: l) :=
  tame_cons rfl rfl h

theorem tame_err (s : String) {l : List Eff} (h : Tame l) : Tame (Eff.err s :: l) :=
  tame_cons rfl rfl h

theorem tame_outs {β : Type} (f : β → String) (l : List β) :
    Tame (l.map fun pr => Eff.out (f pr)) := by
  intro e he
  obtain ⟨pr, _, hpr⟩ := List.mem_map.1 he
  subst hpr
  exact ⟨rfl, rfl⟩

theorem tame_runStep {ec : List String → Nat} {cmd red : List String}
    (h : ¬cmd.head? = some "git") : Tame (runStep ec cmd red).1 := by
  refine tame_cons rfl rfl (tame_cons rfl ?_ tame_nil)
  simpa [isGitExec] using h

theorem tame_packLoop (ec : List String → Nat) :
    ∀ l : List (String × String), Tame (packLoop ec l).1 := by
  intro l
  induction l with
  | nil => exact tame_nil
  | cons pr rest ih =>
    show Tame (packLoop ec (pr :: rest)).1
    unfold packLoop
    have hr : Tame (runStep ec (packCmd pr.1) []).1 :=
      tame_runStep (by simp [packCmd])
    split
    · exact hr
    · exact tame_append hr ih

theorem tame_pack_projects (fs : List (String × String)) (produced : List String)
    (ec : List String → Nat) : Tame (pack_projects fs produced ec).1 := by
  unfold pack_projects
  have hh : Tame (Eff.out "Packable projects:" ::
      ((fs.filter fun pr => is_packable_csproj pr.2).map fun pr => Eff.out ("  - " ++ pr.1)) ++
      (packLoop ec (fs.filter fun pr => is_packable_csproj pr.2)).1) :=
    tame_cons rfl rfl (tame_append (tame_outs _ _) (tame_packLoop ec _))
  split
  · exact tame_nil
  · split
    · exact hh
    · split
      · exact hh
      · exact hh

theorem tame_pushLoop (ec : List String → Nat) (k : String) :
    ∀ l : List String, Tame (pushLoop ec k l).1 := by
  intro l
  induction l with
  | nil => exact tame_nil
  | cons name rest ih =>
    show Tame (pushLoop ec k (name :: rest)).1
    unfold pushLoop
    have hr : Tame (runStep ec (pushCmd k name) [k]).1 :=
      tame_runStep (by simp [pushCmd])
    split
    · exact tame_out _ hr
    · exact tame_out _ (tame_append hr ih)

theorem tame_push_packages (ec : List String → Nat) (k : String) (packages : List String) :
    Tame (push_packages ec k packages).1 :=
  tame_pushLoop ec k (pushOrder packages)

theorem tame_find_solution_file (root : List String) (g : List String) :
    Tame (find_solution_file root g).1 := by
  unfold find_solution_file
  split
  · exact tame_nil
  · split
    · exact tame_err _ tame_nil
    · exact tame_nil

theorem exec_mem_execCmds {c : List String} {l : List Eff} (h : Eff.exec c ∈ l) :
    c ∈ execCmds l :=
  List.mem_filterMap.2 ⟨Eff.exec c, h, rfl⟩

theorem tame_buildAndShip_po (cfg : Config) (apiKey sln : String)
    (fs1 : List (String × String)) (changed : List String) :
    Tame (buildAndShip cfg "publish-only" apiKey sln fs1 changed).1 := by
  have hbld : Tame (runStep cfg.extCode ["dotnet", "build", sln, "-c", "Release"] []).1 :=
    tame_runStep (by simp)
  have hclean : isWriteEff Eff.cleanOutDir = false ∧ isGitExec Eff.cleanOutDir = false :=
    ⟨rfl, rfl⟩
  unfold buildAndShip
  split
  · exact hbld
  · split
    · exact tame_append hbld (tame_cons hclean.1 hclean.2 (tame_pack_projects _ _ _))
    · split
      · exact tame_append hbld (tame_cons hclean.1 hclean.2
          (tame_append (tame_pack_projects _ _ _) (tame_push_packages _ _ _)))
      · rw [if_neg (by decide : ¬¬("publish-only" : String) = "publish-only")]
        exact tame_append hbld (tame_cons hclean.1 hclean.2
          (tame_append (tame_append (tame_pack_projects _ _ _) (tame_push_packages _ _ _))
            (tame_out _ tame_nil)))

theorem pack_projects_ok {fs : List (String × String)} {produced : List String}
    {ec : List String → Nat} {pkgs : List String}
    (h : (pack_projects fs produced ec).2 = .ok pkgs) :
    pkgs = sortStr produced ∧
    ∃ pr ∈ fs, is_packable_csproj pr.2 = true ∧
      Eff.exec (packCmd pr.1) ∈ (pack_projects fs produced ec).1 := by
  unfold pack_projects at h ⊢
  rcases e : fs.filter (fun pr => is_packable_csproj pr.2) with _ | ⟨q, qs⟩
  · rw [e] at h
    simp at h
  · rw [e] at h ⊢
    rw [if_neg (by simp : ¬(q :: qs : List (String × String)) = [])] at h ⊢
    have hq : q ∈ fs ∧ is_packable_csproj q.2 = true := by
      have : q ∈ fs.filter (fun pr => is_packable_csproj pr.2) := by
        rw [e]; exact List.mem_cons_self _ _
      exact ⟨(List.mem_filter.1 this).1, (List.mem_filter.1 this).2⟩
    have hqmem : Eff.exec (packCmd q.1) ∈ (packLoop ec (q :: qs)).1 := by
      unfold packLoop
      split
      · exact List.mem_cons_of_mem _ (List.mem_cons_self _ _)
      · exact List.mem_append.2 (Or.inl (List.mem_cons_of_mem _ (List.mem_cons_self _ _)))
    rcases ep : (packLoop ec (q :: qs)).2 with err | u
    · rw [ep] at h
      dsimp only at h
      exact Except.noConfusion h
    · rw [ep] at h
      dsimp only at h ⊢
      by_cases hsp : sortStr produced = []
      · rw [if_pos hsp] at h
        exact Except.noConfusion h
      · rw [if_neg hsp] at h ⊢
        injection h with h
        subst h
        exact ⟨rfl, q, hq.1, hq.2,
          List.mem_cons_of_mem _ (List.mem_append.2 (Or.inr hqmem))⟩

theorem pushLoop_ok_all {ec : List String → Nat} {k : String} :
    ∀ {l : List String}, (pushLoop ec k l).2 = .ok () →
      ∀ name ∈ l, Eff.exec (pushCmd k name) ∈ (pushLoop ec k l).1 := by
  intro l
  induction l with
  | nil => intro _ name hn; cases hn
  | cons x rest ih =>
    intro hok name hn
    unfold pushLoop at hok ⊢
    by_cases hc : ec (pushCmd k x) = 0
    · rw [if_neg (not_not_intro hc)] at hok ⊢
      rcases List.mem_cons.1 hn with h | h
      · subst h
        exact List.mem_cons_of_mem _ (List.mem_append.2 (Or.inl
          (List.mem_cons_of_mem _ (List.mem_cons_self _ _))))
      · exact List.mem_cons_of_mem _ (List.mem_append.2 (Or.inr (ih hok name h)))
    · rw [if_pos hc] at hok
      exact Except.noConfusion hok

theorem buildAndShip_ok {cfg : Config} {mode apiKey sln : String}
    {fs1 : List (String × String)} {changed : List String}
    (hok : (buildAndShip cfg mode apiKey sln fs1 changed).2 = .ok 0) :
    ["dotnet", "build", sln, "-c", "Release"] ∈
      execCmds (buildAndShip cfg mode apiKey sln fs1 changed).1 ∧
    (∃ pr ∈ fs1, is_packable_csproj pr.2 = true ∧
      packCmd pr.1 ∈ execCmds (buildAndShip cfg mode apiKey sln fs1 changed).1) ∧
    (∀ name ∈ pushOrder (sortStr cfg.produced),
      pushCmd apiKey name ∈ execCmds (buildAndShip cfg mode apiKey sln fs1 changed).1) := by
  have hbld : Eff.exec ["dotnet", "build", sln, "-c", "Release"] ∈
      (runStep cfg.extCode ["dotnet", "build", sln, "-c", "Release"] []).1 :=
    List.mem_cons_of_mem _ (List.mem_cons_self _ _)
  unfold buildAndShip at hok ⊢
  by_cases hbc : cfg.extCode ["dotnet", "build", sln, "-c", "Release"] = 0
  swap
  · rw [if_pos hbc] at hok
    exact Except.noConfusion hok
  rw [if_neg (not_not_intro hbc)] at hok ⊢
  rcases hpk : (pack_projects fs1 cfg.produced cfg.extCode).2 with e | packages
  · rw [hpk] at hok
    dsimp only at hok
    exact Except.noConfusion hok
  rw [hpk] at hok
  dsimp only at hok ⊢
  obtain ⟨hpkgs, pr, hpr, hpack, hmem⟩ := pack_projects_ok hpk
  subst hpkgs
  rcases hps : (push_packages cfg.extCode apiKey (sortStr cfg.produced)).2 with e | u
  · rw [hps] at hok
    dsimp only at hok
    exact Except.noConfusion hok
  rw [hps] at hok
  dsimp only at hok ⊢
  have hpush : ∀ name ∈ pushOrder (sortStr cfg.produced),
      Eff.exec (pushCmd apiKey name) ∈
        (push_packages cfg.extCode apiKey (sortStr cfg.produced)).1 := by
    intro name hname
    exact pushLoop_ok_all hps name hname
  by_cases hmo : mode = "publish-only"
  · rw [if_neg (not_not_intro hmo)] at hok ⊢
    refine ⟨?_, ⟨pr, hpr, hpack, ?_⟩, ?_⟩
    · exact exec_mem_execCmds (List.mem_append.2 (Or.inl hbld))
    · exact exec_mem_execCmds (List.mem_append.2 (Or.inr (List.mem_cons_of_mem _
        (List.mem_append.2 (Or.inl (List.mem_append.2 (Or.inl hmem)))))))
    · intro name hname
      exact exec_mem_execCmds (List.mem_append.2 (Or.inr (List.mem_cons_of_mem _
        (List.mem_append.2 (Or.inl (List.mem_append.2 (Or.inr (hpush name hname))))))))
  · rw [if_pos hmo] at hok ⊢
    rcases hg : (git_commit_version_bump cfg.extCode cfg.gitDir changed mode).2 with e | u2
    · rw [hg] at hok
      dsimp only at hok
      exact Except.noConfusion hok
    · rw [hg] at hok
      dsimp only at hok ⊢
      refine ⟨?_, ⟨pr, hpr, hpack, ?_⟩, ?_⟩
      · exact exec_mem_execCmds (List.mem_append.2 (Or.inl hbld))
      · exact exec_mem_execCmds (List.mem_append.2 (Or.inr (List.mem_cons_of_mem _
          (List.mem_append.2 (Or.inl (List.mem_append.2 (Or.inl
            (List.mem_append.2 (Or.inl hmem)))))))))
      · intro name hname
        exact exec_mem_execCmds (List.mem_append.2 (Or.inr (List.mem_cons_of_mem _
          (List.mem_append.2 (Or.inl (List.mem_append.2 (Or.inl
            (List.mem_append.2 (Or.inr (hpush name hname))))))))))

theorem execCmds_append (l1 l2 : List Eff) :
    execCmds (l1 ++ l2) = execCmds l1 ++ execCmds l2 :=
  List.filterMap_append _ _ _

theorem mainBody_publish_only (cfg : Config) (prog a1 a2 : String)
    (hargv : cfg.argv = [prog, a1, a2])
    (hmode : String.mk (pyStrip (pyLower a1.data)) = "publish-only") :
    (mainBody cfg).2.1 = cfg.fs0 ∧
    Tame (mainBody cfg).1 ∧
    ((mainBody cfg).2.2 = .ok 0 →
      ∃ sln, ["dotnet", "build", sln, "-c", "Release"] ∈ execCmds (mainBody cfg).1 ∧
        (∃ pr ∈ cfg.fs0, is_packable_csproj pr.2 = true ∧
          packCmd pr.1 ∈ execCmds (mainBody cfg).1) ∧
        ∀ name ∈ pushOrder (sortStr cfg.produced),
          pushCmd (String.mk (pyStrip a2.data)) name ∈ execCmds (mainBody cfg).1) := by
  unfold mainBody
  rw [hargv]
  dsimp only
  rw [hmode]
  rw [if_neg (by decide :
    ¬¬(("publish-only" : String) = "major" ∨ ("publish-only" : String) = "minor" ∨
       ("publish-only" : String) = "patch" ∨ ("publish-only" : String) = "publish-only"))]
  by_cases hkey : String.mk (pyStrip a2.data) = ""
  · rw [if_pos hkey]
    refine ⟨rfl, tame_err _ tame_nil, ?_⟩
    intro h
    exact absurd h (by simp)
  · rw [if_neg hkey]
    rcases hroot : find_repo_root cfg.hasSln cfg.cwd cfg.scriptDir with _ | root
    · dsimp only
      refine ⟨rfl, tame_nil, ?_⟩
      intro h
      exact absurd h (by simp)
    · dsimp only
      rcases hsln : (find_solution_file root cfg.slnGlob).2 with m | sln
      · dsimp only
        refine ⟨rfl, tame_find_solution_file _ _, ?_⟩
        intro h
        exact absurd h (by simp)
      · dsimp only
        have hvs : versionStage cfg "publish-only" =
            (cfg.fs0,
             [Eff.out "publish-only: leaving versions unchanged; no git operations will be performed."],
             .ok []) := by
          unfold versionStage
          rw [if_neg (by decide : ¬¬("publish-only" : String) = "publish-only")]
        rw [hvs]
        dsimp only
        refine ⟨rfl, ?_, ?_⟩
        · refine tame_append (tame_append (tame_append
            (tame_find_solution_file _ _) ?_) ?_) ?_
          · exact tame_out _ (tame_out _ (tame_out _ tame_nil))
          · exact tame_out _ tame_nil
          · exact tame_buildAndShip_po cfg _ sln cfg.fs0 []
        · intro h
          obtain ⟨hb, ⟨pr, hpr, hpk, hpkm⟩, hpush⟩ := buildAndShip_ok h
          refine ⟨sln, ?_, ⟨pr, hpr, hpk, ?_⟩, ?_⟩
          · rw [execCmds_append]
            exact List.mem_append.2 (Or.inr hb)
          · rw [execCmds_append]
            exact List.mem_append.2 (Or.inr hpkm)
          · intro name hname
            rw [execCmds_append]
            exact List.mem_append.2 (Or.inr (hpush name hname))

/-- C3: a run invoked in publish-only mode never writes a manifest file and
never invokes the version-control tool, and — when the run succeeds — the
build, pack and push stages were all still invoked (the build command, one
pack command per packable project of which at least one exists, and one
push command per eligible artifact all appear among the executed
commands). -/
theorem publish_only_frame (cfg : Config) (prog a1 a2 : String)
    (hargv : cfg.argv = [prog, a1, a2])
    (hmode : String.mk (pyStrip (pyLower a1.data)) = "publish-only") :
    (publishMain cfg).2.1 = cfg.fs0 ∧
    Tame (publishMain cfg).1 ∧
    ((publishMain cfg).2.2 = .exited 0 →
      ∃ sln, ["dotnet", "build", sln, "-c", "Release"] ∈ execCmds (publishMain cfg).1 ∧
        (∃ pr ∈ cfg.fs0, is_packable_csproj pr.2 = true ∧
          packCmd pr.1 ∈ execCmds (publishMain cfg).1) ∧
        ∀ name ∈ pushOrder (sortStr cfg.produced),
          pushCmd (String.mk (pyStrip a2.data)) name ∈ execCmds (publishMain cfg).1) := by
  obtain ⟨h1, h2, h3⟩ := mainBody_publish_only cfg prog a1 a2 hargv hmode
  unfold publishMain
  rcases hr : (mainBody cfg).2.2 with pe | n
  · rcases pe with m | c
    · dsimp only
      refine ⟨h1, tame_append h2 (tame_err _ tame_nil), ?_⟩
      intro h
      exact absurd h (by simp)
    · dsimp only
      refine ⟨h1, tame_append h2 (tame_err _ tame_nil), ?_⟩
      intro h
      exact absurd h (by simp)
  · dsimp only
    refine ⟨h1, h2, ?_⟩
    intro h
    have hn : n = 0 := by
      injection h
    subst hn
    exact h3 hr

/-- A concrete publish-only run used to instantiate C3. -/
def cfgPublishOnly : Config :=
  { argv := ["publish.py", "publish-only", "KEY"]
    cwd := []
    scriptDir := []
    hasSln := fun _ => true
    slnGlob := ["A.sln"]
    fs0 := [("Source/Analyzers/P.csproj", "<PackageId>P</PackageId>")]
    gitDir := false
    extCode := fun _ => 0
    produced := ["P.1.0.0.nupkg"] }

/-- Witness for C3 at the concrete publish-only run `cfgPublishOnly`. -/
theorem publish_only_frame_witness :
    (publishMain cfgPublishOnly).2.1 = cfgPublishOnly.fs0 ∧
    Tame (publishMain cfgPublishOnly).1 ∧
    ((publishMain cfgPublishOnly).2.2 = .exited 0 →
      ∃ sln, ["dotnet", "build", sln, "-c", "Release"] ∈
          execCmds (publishMain cfgPublishOnly).1 ∧
        (∃ pr ∈ cfgPublishOnly.fs0, is_packable_csproj pr.2 = true ∧
          packCmd pr.1 ∈ execCmds (publishMain cfgPublishOnly).1) ∧
        ∀ name ∈ pushOrder (sortStr cfgPublishOnly.produced),
          pushCmd (String.mk (pyStrip ("KEY".data))) name ∈
            execCmds (publishMain cfgPublishOnly).1) :=
  publish_only_frame cfgPublishOnly "publish.py" "publish-only" "KEY" rfl (by decide)

/-! ### Facts needed for the bump-stage claims -/

/-- The defining step of `subn`, stated once for rewriting. -/
theorem subnAux_succ (newv : List Char) (fuel : Nat) (cs : List Char) :
    subnAux newv (fuel + 1) cs =
      match matchVersionAt cs with
      | some (g1, _, g3, rest) =>
        (g1 ++ newv ++ g3 ++ (subnAux newv fuel rest).1, (subnAux newv fuel rest).2 + 1)
      | none =>
        match cs with
        | [] => ([], 0)
        | c :: t => (c :: (subnAux newv fuel t).1, (subnAux newv fuel t).2) := rfl

/-- The replacement count of `subn` equals the number of matches the scan
finds. -/
theorem subnAux_count (newv : List Char) :
    ∀ (fuel : Nat) (cs : List Char),
      (subnAux newv fuel cs).2 = (finditerAux fuel cs).length := by
  intro fuel
  induction fuel with
  | zero => intro cs; rfl
  | succ fuel ih =>
    intro cs
    rw [subnAux_succ, finditerAux_succ]
    rcases hm : matchVersionAt cs with _ | ⟨g1, g2, g3, rest⟩
    · cases cs with
      | nil => rfl
      | cons c t =>
        dsimp only
        exact ih t
    · dsimp only
      rw [ih rest]
      rfl

/-- `replace_version` replaces exactly as many occurrences as
`extract_versions` finds. -/
theorem replace_version_count (text newv : String) :
    (replace_version text newv).2 = (extract_versions text).length := by
  unfold replace_version extract_versions
  rw [subnAux_count, List.length_map]

/-- A manifest with at least one version declaration always gets a positive
replacement count — the zero-replacements branch is unreachable. -/
theorem replace_count_pos {old s : String} (h : ¬extract_versions old = []) :
    ¬(replace_version old s).2 = 0 := by
  rw [replace_version_count]
  simpa using h

/-- The scan of `bumpLoop` performs no subprocess invocation. -/
theorem bumpLoop_no_exec (s : String) :
    ∀ l : List (String × String), execCmds (bumpLoop s l).2.1 = [] := by
  intro l
  induction l with
  | nil => rfl
  | cons q rest ih =>
    obtain ⟨qp, qt⟩ := q
    unfold bumpLoop
    split
    · rfl
    · split
      · rfl
      · split
        · show execCmds (Eff.write qp _ :: Eff.out _ :: (bumpLoop s rest).2.1) = []
          show execCmds (bumpLoop s rest).2.1 = []
          exact ih
        · show execCmds (Eff.out _ :: (bumpLoop s rest).2.1) = []
          show execCmds (bumpLoop s rest).2.1 = []
          exact ih

/-- The defining step of `bumpLoop`, stated once for rewriting. -/
theorem bumpLoop_cons (s p old : String) (rest : List (String × String)) :
    bumpLoop s ((p, old) :: rest) =
      if extract_versions old = [] then
        ((p, old) :: rest, [], .error ("Missing <Version> in: " ++ p))
      else if (replace_version old s).2 = 0 then
        ((p, old) :: rest, [], .error ("Failed to replace <Version> in: " ++ p))
      else if ¬(replace_version old s).1 = old then
        ((p, (replace_version old s).1) :: (bumpLoop s rest).1,
         Eff.write p (replace_version old s).1 ::
           Eff.out ("Updated: " ++ p ++ " (replacements: " ++
             natRender (replace_version old s).2 ++ ")") :: (bumpLoop s rest).2.1,
         ((bumpLoop s rest).2.2).map fun ch => p :: ch)
      else
        ((p, old) :: (bumpLoop s rest).1,
         Eff.out ("Unchanged: " ++ p) :: (bumpLoop s rest).2.1,
         (bumpLoop s rest).2.2) := rfl

/-- Hitting the first manifest without a version declaration: the loop
fails naming that manifest, every earlier manifest is already rewritten on
disk (when its text changed, with a corresponding write effect), and
nothing is rolled back. -/
theorem bumpLoop_missing (s : String) :
    ∀ (pre : List (String × String)) (badP badT : String) (rest : List (String × String)),
      (∀ q ∈ pre, ¬extract_versions q.2 = []) →
      extract_versions badT = [] →
      (bumpLoop s (pre ++ (badP, badT) :: rest)).2.2 =
        .error ("Missing <Version> in: " ++ badP) ∧
      (bumpLoop s (pre ++ (badP, badT) :: rest)).1 =
        pre.map (fun q => (q.1, (replace_version q.2 s).1)) ++ (badP, badT) :: rest ∧
      (∀ q ∈ pre, ¬(replace_version q.2 s).1 = q.2 →
        Eff.write q.1 (replace_version q.2 s).1 ∈ (bumpLoop s (pre ++ (badP, badT) :: rest)).2.1) := by
  intro pre
  induction pre with
  | nil =>
    intro badP badT rest _ hbad
    have hb : bumpLoop s ([] ++ (badP, badT) :: rest) =
        ((badP, badT) :: rest, [], .error ("Missing <Version> in: " ++ badP)) := by
      show bumpLoop s ((badP, badT) :: rest) = _
      rw [bumpLoop_cons, if_pos hbad]
    rw [hb]
    exact ⟨rfl, rfl, fun q hq => absurd hq (List.not_mem_nil _)⟩
  | cons q pre ih =>
    intro badP badT rest hver hbad
    obtain ⟨qp, qt⟩ := q
    simp only [List.cons_append]
    have hq : ¬extract_versions qt = [] := hver (qp, qt) (List.mem_cons_self _ _)
    have hcount : ¬(replace_version qt s).2 = 0 := replace_count_pos hq
    obtain ⟨ih1, ih2, ih3⟩ :=
      ih badP badT rest (fun r hr => hver r (List.mem_cons_of_mem _ hr)) hbad
    show ((bumpLoop s ((qp, qt) :: (pre ++ (badP, badT) :: rest))).2.2 = _) ∧ _
    rw [bumpLoop_cons, if_neg hq, if_neg hcount]
    by_cases hch : (replace_version qt s).1 = qt
    · rw [if_neg (not_not_intro hch)]
      refine ⟨ih1, ?_, ?_⟩
      · show (qp, qt) :: (bumpLoop s (pre ++ (badP, badT) :: rest)).1 = _
        rw [ih2]
        simp [hch]
      · intro r hr hwr
        rcases List.mem_cons.1 hr with he | hm
        · rw [he] at hwr
          exact absurd hch hwr
        · exact List.mem_cons_of_mem _ (ih3 r hm hwr)
    · rw [if_pos hch]
      refine ⟨?_, ?_, ?_⟩
      · show ((bumpLoop s (pre ++ (badP, badT) :: rest)).2.2).map _ = _
        rw [ih1]
        rfl
      · show (qp, (replace_version qt s).1) :: (bumpLoop s (pre ++ (badP, badT) :: rest)).1 = _
        rw [ih2]
        rfl
      · intro r hr hwr
        rcases List.mem_cons.1 hr with he | hm
        · subst he
          exact List.mem_cons_self _ _
        · exact List.mem_cons_of_mem _ (List.mem_cons_of_mem _ (ih3 r hm hwr))

theorem mem_insertLe {α : Type} (le : α → α → Bool) (y x : α) :
    ∀ l : List α, (x ∈ insertLe le y l ↔ x = y ∨ x ∈ l) := by
  intro l
  induction l with
  | nil => simp [insertLe]
  | cons a l ih =>
    show x ∈ (if le y a then y :: a :: l else a :: insertLe le y l) ↔ _
    split
    · simp
    · simp only [List.mem_cons, ih]
      tauto

theorem mem_insertionSort {α : Type} (le : α → α → Bool) :
    ∀ (l : List α) (x : α), (x ∈ insertionSort le l ↔ x ∈ l) := by
  intro l
  induction l with
  | nil => intro x; simp [insertionSort]
  | cons a l ih =>
    intro x
    show x ∈ insertLe le a (insertionSort le l) ↔ _
    rw [mem_insertLe, ih x]
    simp

theorem mem_sortByPath {ps : List (String × String)} {x : String × String} :
    x ∈ sortByPath ps ↔ x ∈ ps :=
  mem_insertionSort _ ps x

theorem mem_flat {α : Type} {x : α} :
    ∀ {ls : List (List α)}, (x ∈ flat ls ↔ ∃ l ∈ ls, x ∈ l) := by
  intro ls
  induction ls with
  | nil => simp [flat]
  | cons l ls ih =>
    show x ∈ l ++ flat ls ↔ _
    simp only [List.mem_append, ih]
    simp

/-- The first element satisfying a predicate splits the list. -/
theorem exists_first_split {α : Type} (P : α → Prop) [DecidablePred P] :
    ∀ {l : List α}, (∃ x ∈ l, P x) →
      ∃ pre bad rest, l = pre ++ bad :: rest ∧ P bad ∧ ∀ q ∈ pre, ¬P q := by
  intro l
  induction l with
  | nil => rintro ⟨x, hx, _⟩; cases hx
  | cons a l ih =>
    intro h
    by_cases ha : P a
    · exact ⟨[], a, l, rfl, ha, by simp⟩
    · have h2 : ∃ x ∈ l, P x := by
        obtain ⟨x, hx, hPx⟩ := h
        rcases List.mem_cons.1 hx with he | hm
        · subst he; exact absurd hPx ha
        · exact ⟨x, hm, hPx⟩
      obtain ⟨pre, bad, rest, heq, hPb, hpre⟩ := ih h2
      refine ⟨a :: pre, bad, rest, by rw [heq]; rfl, hPb, ?_⟩
      intro q hq
      rcases List.mem_cons.1 hq with he | hm
      · subst he; exact ha
      · exact hpre q hm

/-- When some targeted manifest has a version declaration, base selection
succeeds. -/
theorem choose_base_ok {ps : List (String × String)}
    (h : ∃ q ∈ ps, ¬extract_versions q.2 = []) :
    ∃ base, choose_base_version ps = .ok base := by
  rw [choose_base_version_spec]
  obtain ⟨q, hq, hqv⟩ := h
  obtain ⟨v, hv⟩ : ∃ v, v ∈ extract_versions q.2 := by
    rcases e : extract_versions q.2 with _ | ⟨v, vs⟩
    · exact absurd e hqv
    · exact ⟨v, List.mem_cons_self v vs⟩
  have hvflat : v ∈ flat ((sortByPath ps).map fun pr => extract_versions pr.2) := by
    rw [mem_flat]
    exact ⟨extract_versions q.2, List.mem_map.2 ⟨q, mem_sortByPath.2 hq, rfl⟩, hv⟩
  rcases e : (flat ((sortByPath ps).map fun pr => extract_versions pr.2)).head? with _ | v0
  · rw [List.head?_eq_none_iff] at e
    rw [e] at hvflat
    cases hvflat
  · have hv0 : v0 ∈ flat ((sortByPath ps).map fun pr => extract_versions pr.2) :=
      List.mem_of_mem_head? e
    obtain ⟨l0, hl0, hv0l⟩ := mem_flat.1 hv0
    obtain ⟨pr0, _, hpr0⟩ := List.mem_map.1 hl0
    subst hpr0
    obtain ⟨g2, hg2, hmk⟩ := List.mem_map.1 hv0l
    subst hmk
    obtain ⟨w, hw, -⟩ := finditerAux_g2 _ _ _ hg2
    rw [e]
    exact ⟨w, hw⟩

/-- In a bump mode, a manifest without a version declaration makes the
version stage fail without any subprocess invocation; and whenever some
other manifest supplies a base version, the error names the first
offending file. -/
theorem bump_versions_missing {fs : List (String × String)} {kind : String}
    (hk : kind = "major" ∨ kind = "minor" ∨ kind = "patch")
    (hbad : ∃ pr ∈ fs, extract_versions pr.2 = []) :
    ∃ m, (bump_versions_in_projects fs kind).2.2 = .error m ∧
      execCmds (bump_versions_in_projects fs kind).2.1 = [] ∧
      ((∃ q ∈ fs, ¬extract_versions q.2 = []) →
        ∃ pr ∈ fs, extract_versions pr.2 = [] ∧ m = "Missing <Version> in: " ++ pr.1) := by
  have hfs : ¬fs = [] := by
    obtain ⟨pr, hpr, -⟩ := hbad
    intro he
    rw [he] at hpr
    cases hpr
  unfold bump_versions_in_projects
  rw [if_neg hfs]
  rcases ecb : choose_base_version fs with m | base
  · dsimp only
    refine ⟨m, rfl, rfl, ?_⟩
    intro hsome
    obtain ⟨base, hb⟩ := choose_base_ok hsome
    rw [ecb] at hb
    exact Except.noConfusion hb
  · dsimp only
    obtain ⟨w, hw⟩ : ∃ w, base.bump kind = .ok w := by
      rcases hk with h | h | h
      all_goals subst h
      · exact ⟨_, rfl⟩
      · exact ⟨_, rfl⟩
      · exact ⟨_, rfl⟩
    rw [hw]
    dsimp only
    obtain ⟨pre, bad, rest, heq, hbadv, hprev⟩ :=
      exists_first_split (fun pr : String × String => extract_versions pr.2 = []) hbad
    obtain ⟨bp, bt⟩ := bad
    subst heq
    obtain ⟨h1, _, _⟩ := bumpLoop_missing (SemVer.str w) pre bp bt rest
      (fun q hq => hprev q hq) hbadv
    rw [h1]
    refine ⟨"Missing <Version> in: " ++ bp, rfl, ?_, ?_⟩
    · show execCmds (bumpLoop (SemVer.str w) (pre ++ (bp, bt) :: rest)).2.1 = []
      exact bumpLoop_no_exec _ _
    · intro _
      exact ⟨(bp, bt), List.mem_append.2 (Or.inr (List.mem_cons_self _ _)), hbadv, rfl⟩

theorem execCmds_find_solution_file (root g : List String) :
    execCmds (find_solution_file root g).1 = [] := by
  unfold find_solution_file
  split
  · rfl
  · split
    · rfl
    · rfl

theorem versionStage_missing (cfg : Config) (mode : String)
    (hk : mode = "major" ∨ mode = "minor" ∨ mode = "patch")
    (hbad : ∃ pr ∈ cfg.fs0, extract_versions pr.2 = []) :
    ∃ m, (versionStage cfg mode).2.2 = .error (.msg m) ∧
      execCmds (versionStage cfg mode).2.1 = [] ∧
      ((∃ q ∈ cfg.fs0, ¬extract_versions q.2 = []) →
        ∃ pr ∈ cfg.fs0, extract_versions pr.2 = [] ∧ m = "Missing <Version> in: " ++ pr.1) := by
  have hne : ¬mode = "publish-only" := by
    rcases hk with h | h | h
    all_goals subst h
    · decide
    · decide
    · decide
  obtain ⟨m, h1, h2, h3⟩ := bump_versions_missing hk hbad
  unfold versionStage
  rw [if_pos hne, h1]
  exact ⟨m, rfl, h2, h3⟩

theorem mainBody_bump_missing (cfg : Config) (prog a1 a2 : String)
    (hargv : cfg.argv = [prog, a1, a2])
    (hmode : String.mk (pyStrip (pyLower a1.data)) = "major" ∨
             String.mk (pyStrip (pyLower a1.data)) = "minor" ∨
             String.mk (pyStrip (pyLower a1.data)) = "patch")
    (hkey : ¬String.mk (pyStrip a2.data) = "")
    (hrootH : ¬find_repo_root cfg.hasSln cfg.cwd cfg.scriptDir = none)
    (hsln : ¬sortStr cfg.slnGlob = [])
    (hbad : ∃ pr ∈ cfg.fs0, extract_versions pr.2 = []) :
    ∃ m, (mainBody cfg).2.2 = .error (.msg m) ∧
      execCmds (mainBody cfg).1 = [] ∧
      ((∃ q ∈ cfg.fs0, ¬extract_versions q.2 = []) →
        ∃ pr ∈ cfg.fs0, extract_versions pr.2 = [] ∧ m = "Missing <Version> in: " ++ pr.1) := by
  have hvalid : ¬¬(String.mk (pyStrip (pyLower a1.data)) = "major" ∨
      String.mk (pyStrip (pyLower a1.data)) = "minor" ∨
      String.mk (pyStrip (pyLower a1.data)) = "patch" ∨
      String.mk (pyStrip (pyLower a1.data)) = "publish-only") := by
    rcases hmode with h | h | h
    all_goals rw [h]
    · decide
    · decide
    · decide
  unfold mainBody
  rw [hargv]
  dsimp only
  rw [if_neg hvalid, if_neg hkey]
  rcases hroot : find_repo_root cfg.hasSln cfg.cwd cfg.scriptDir with _ | root
  · exact absurd hroot hrootH
  · dsimp only
    rcases e : sortStr cfg.slnGlob with _ | ⟨s0, srest⟩
    · exact absurd e hsln
    · have hfsf : (find_solution_file root cfg.slnGlob).2 = .ok s0 := by
        unfold find_solution_file
        rw [e]
      rw [hfsf]
      dsimp only
      obtain ⟨m, hv1, hv2, hv3⟩ := versionStage_missing cfg _ hmode hbad
      rw [hv1]
      dsimp only
      refine ⟨m, rfl, ?_, hv3⟩
      rw [execCmds_append, execCmds_append, execCmds_find_solution_file, hv2]
      rfl

/-- C5 (amended): in a bump mode, if any discovered manifest contains no
version declaration (equivalently, a rewrite would replace zero
occurrences), the run fails with a fatal error before any external
invocation occurs — the executed-command list is empty — and whenever some
other manifest supplies a base version, the error message names the first
offending file.  (When no manifest at all has a version declaration the
failure is the no-version-found error instead, which names no file; see the
counterexample.) -/
theorem bump_missing_fails (cfg : Config) (prog a1 a2 : String)
    (hargv : cfg.argv = [prog, a1, a2])
    (hmode : String.mk (pyStrip (pyLower a1.data)) = "major" ∨
             String.mk (pyStrip (pyLower a1.data)) = "minor" ∨
             String.mk (pyStrip (pyLower a1.data)) = "patch")
    (hkey : ¬String.mk (pyStrip a2.data) = "")
    (hrootH : ¬find_repo_root cfg.hasSln cfg.cwd cfg.scriptDir = none)
    (hsln : ¬sortStr cfg.slnGlob = [])
    (hbad : ∃ pr ∈ cfg.fs0, extract_versions pr.2 = []) :
    ∃ m, (publishMain cfg).2.2 = .errored m ∧
      execCmds (publishMain cfg).1 = [] ∧
      ((∃ q ∈ cfg.fs0, ¬extract_versions q.2 = []) →
        ∃ pr ∈ cfg.fs0, extract_versions pr.2 = [] ∧
          m = "Missing <Version> in: " ++ pr.1) := by
  obtain ⟨m, h1, h2, h3⟩ :=
    mainBody_bump_missing cfg prog a1 a2 hargv hmode hkey hrootH hsln hbad
  unfold publishMain
  rw [h1]
  dsimp only
  refine ⟨m, rfl, ?_, h3⟩
  rw [execCmds_append, h2]
  rfl

/-- A concrete bump run with one manifest carrying a version and a second
manifest missing one, used to instantiate C5. -/
def cfgMissing : Config :=
  { argv := ["publish.py", "minor", "KEY"]
    cwd := []
    scriptDir := []
    hasSln := fun _ => true
    slnGlob := ["A.sln"]
    fs0 := [("Source/Analyzers/A.csproj", "<Version>1.2.3</Version>"),
            ("Source/Analyzers/B.csproj", "<PackageId>B</PackageId>")]
    gitDir := true
    extCode := fun _ => 0
    produced := [] }

/-- Witness for C5 at the concrete run `cfgMissing`. -/
theorem bump_missing_fails_witness :
    ∃ m, (publishMain cfgMissing).2.2 = .errored m ∧
      execCmds (publishMain cfgMissing).1 = [] ∧
      ((∃ q ∈ cfgMissing.fs0, ¬extract_versions q.2 = []) →
        ∃ pr ∈ cfgMissing.fs0, extract_versions pr.2 = [] ∧
          m = "Missing <Version> in: " ++ pr.1) :=
  bump_missing_fails cfgMissing "publish.py" "minor" "KEY" rfl
    (Or.inr (Or.inl (by decide))) (by decide) (by decide) (by decide) (by decide)

/-- Whether `needle` occurs as a contiguous substring of `hay`. -/
def containsSub (needle : List Char) : List Char → Bool
  | [] => needle.isEmpty
  | c :: t => needle.isPrefixOf (c :: t) || containsSub needle t

/-- A concrete bump run in which the only discovered manifest has no
version declaration at all. -/
def cfgNoVersion : Config :=
  { argv := ["publish.py", "minor", "KEY"]
    cwd := []
    scriptDir := []
    hasSln := fun _ => true
    slnGlob := ["A.sln"]
    fs0 := [("Source/Analyzers/A.csproj", "<PackageId>A</PackageId>")]
    gitDir := true
    extCode := fun _ => 0
    produced := [] }

/-- C5 counterexample: when the manifest that lacks a version declaration
is the only one (so no base version exists), the run does fail before any
external invocation, but with the no-version-found error, whose message
does not name the offending file — refuting "raises a fatal error naming
the offending file" as universally stated. -/
theorem missing_version_counterexample :
    (publishMain cfgNoVersion).2.2 =
      .errored "No <Version>x.y.z</Version> found in any targeted .csproj files." ∧
    execCmds (publishMain cfgNoVersion).1 = [] ∧
    containsSub "Source/Analyzers/A.csproj".data
      "No <Version>x.y.z</Version> found in any targeted .csproj files.".data = false :=
  ⟨by decide, by decide, by decide⟩

/-- C10: the version-rewrite stage is not atomic on error.  If the first
manifest without a version declaration is not first in discovery order,
the stage fails naming it, while every earlier manifest whose content
differed from the target rewrite has already been rewritten on disk (with
its write effect emitted) and is not rolled back. -/
theorem bump_not_atomic (pre : List (String × String)) (badP badT : String)
    (rest : List (String × String)) (kind : String) (base newv : SemVer)
    (hpre : ¬pre = [])
    (hver : ∀ q ∈ pre, ¬extract_versions q.2 = [])
    (hbad : extract_versions badT = [])
    (hbase : choose_base_version (pre ++ (badP, badT) :: rest) = .ok base)
    (hbump : base.bump kind = .ok newv) :
    (bump_versions_in_projects (pre ++ (badP, badT) :: rest) kind).2.2 =
      .error ("Missing <Version> in: " ++ badP) ∧
    (bump_versions_in_projects (pre ++ (badP, badT) :: rest) kind).1 =
      pre.map (fun q => (q.1, (replace_version q.2 (SemVer.str newv)).1)) ++
        (badP, badT) :: rest ∧
    (∀ q ∈ pre, ¬(replace_version q.2 (SemVer.str newv)).1 = q.2 →
      Eff.write q.1 (replace_version q.2 (SemVer.str newv)).1 ∈
        (bump_versions_in_projects (pre ++ (badP, badT) :: rest) kind).2.1) := by
  have hfs : ¬pre ++ (badP, badT) :: rest = [] := by simp
  unfold bump_versions_in_projects
  rw [if_neg hfs, hbase]
  dsimp only
  rw [hbump]
  dsimp only
  obtain ⟨h1, h2, h3⟩ := bumpLoop_missing (SemVer.str newv) pre badP badT rest hver hbad
  refine ⟨?_, h2, ?_⟩
  · rw [h1]
    rfl
  · intro q hq hwr
    exact List.mem_cons_of_mem _ (h3 q hq hwr)

/-- Witness for C10: after the failure on the second manifest, the first
one already holds the bumped version `1.3.0` on disk. -/
theorem bump_not_atomic_witness :
    (bump_versions_in_projects
        ([("Source/Analyzers/A.csproj", "<Version>1.2.3</Version>")] ++
          ("Source/Analyzers/B.csproj", "") :: []) "minor").2.2 =
      .error ("Missing <Version> in: " ++ "Source/Analyzers/B.csproj") ∧
    (bump_versions_in_projects
        ([("Source/Analyzers/A.csproj", "<Version>1.2.3</Version>")] ++
          ("Source/Analyzers/B.csproj", "") :: []) "minor").1 =
      [("Source/Analyzers/A.csproj", "<Version>1.2.3</Version>")].map
          (fun q => (q.1, (replace_version q.2 (SemVer.str ⟨1, 3, 0⟩)).1)) ++
        ("Source/Analyzers/B.csproj", "") :: [] ∧
    (∀ q ∈ [("Source/Analyzers/A.csproj", "<Version>1.2.3</Version>")],
      ¬(replace_version q.2 (SemVer.str ⟨1, 3, 0⟩)).1 = q.2 →
      Eff.write q.1 (replace_version q.2 (SemVer.str ⟨1, 3, 0⟩)).1 ∈
        (bump_versions_in_projects
          ([("Source/Analyzers/A.csproj", "<Version>1.2.3</Version>")] ++
            ("Source/Analyzers/B.csproj", "") :: []) "minor").2.1) :=
  bump_not_atomic [("Source/Analyzers/A.csproj", "<Version>1.2.3</Version>")]
    "Source/Analyzers/B.csproj" "" [] "minor" ⟨1, 2, 3⟩ ⟨1, 3, 0⟩
    (by decide) (by decide) (by decide) (by decide) (by decide)

/-- A run whose caller-supplied credential happens to be the string
`Release`, which also occurs as a token in every build command. -/
def cfgRelease : Config :=
  { argv := ["publish.py", "publish-only", "Release"]
    cwd := []
    scriptDir := []
    hasSln := fun _ => true
    slnGlob := ["A.sln"]
    fs0 := [("Source/Analyzers/P.csproj", "<PackageId>P</PackageId>")]
    gitDir := false
    extCode := fun _ => 1
    produced := [] }

/-- C4 counterexample: only the push invocation passes the credential as a
redact value; the build echo is printed unredacted, so a credential equal
to `Release` appears verbatim in logged output — refuting "the credential
string never appears verbatim in any logged, echoed, or error output" as
universally stated. -/
theorem credential_echo_counterexample :
    Eff.echo ["dotnet", "build", "A.sln", "-c", "Release"] ∈ (publishMain cfgRelease).1 ∧
    String.mk (pyStrip ("Release".data)) = "Release" ∧
    containsSub "Release".data
      (echoLine ["dotnet", "build", "A.sln", "-c", "Release"]).data = true :=
  ⟨by decide, by decide, by decide⟩

/-- C4 (amended): echo redaction is by exact whole-token match — every
command token equal to a non-empty value in `redact_values` prints as
`****`.  Hence a non-empty credential passed in `redact_values` (as the
push stage passes the api key) never appears as a token of the echoed
command, unless the credential is the mask `****` itself.  Tokens of
commands echoed without a redact list, and error messages, are not
filtered, so a credential coinciding with one of those strings can appear
verbatim. -/
theorem redact_exact (cmd redacts : List String) (k : String)
    (hk : k ∈ redacts) (hne : ¬k = "") (hmask : ¬k = "****") :
    ¬k ∈ redactParts cmd redacts := by
  intro hmem
  obtain ⟨part, hpart, heq⟩ := List.mem_map.1 hmem
  by_cases hc : part ∈ redacts ∧ ¬part = ""
  · rw [if_pos hc] at heq
    exact hmask heq.symm
  · rw [if_neg hc] at heq
    subst heq
    exact hc ⟨hk, hne⟩

/-- Witness for C4's amended redaction guarantee on a concrete push
command. -/
theorem redact_exact_witness :
    ¬"sek" ∈ redactParts
      ["dotnet", "nuget", "push", "a.nupkg", "--api-key", "sek"] ["sek"] :=
  redact_exact ["dotnet", "nuget", "push", "a.nupkg", "--api-key", "sek"] ["sek"] "sek"
    (by decide) (by decide) (by decide)
